import Mathlib

/-!
# ARM template outputs of a Kubernetes cluster (`pkg/engine/armoutputs.go`)

A shallow embedding of `GetKubernetesOutputs` and `getMasterOutputs`, and the
properties of the output set they build.

* A Go `map[string]interface{}` is an association list with unique keys; `m[k] = v`
  is `Outputs.set` (overwrite in place, or append a new entry).
* An output descriptor `{"type": t, "value": v}` is the structure `Output`.
* `fmt.Sprintf` with `%s` and `%d` verbs is string concatenation, `%d` printing the
  decimal numeral of a non-negative loop index. Pool names are text (valid UTF-8), so
  concatenation and equality of Lean strings agree with those of Go strings.
* A `for i := 0; i < n; i++` loop runs its body for `i` in `List.range n.toNat`; a
  `range` loop over a slice is a left fold over the list.
* The types and predicates of package `api` are not part of the source file; they are
  modelled after the data model of the specification and marked as such.
-/

namespace Engine

/-! ## Data model -/

/-- Modelled from the spec: `api.AgentPoolProfile` is declared outside the source file;
the spec gives it a name and three topology flags. -/
structure AgentPoolProfile where
  Name : String
  usesAvailabilitySet : Bool
  usesStorageAccount : Bool
  usesScaleSet : Bool
  deriving DecidableEq, Repr

/-- Modelled from the spec: `api.MasterProfile` is declared outside the source file;
the spec gives it three flags and a count. `Count` is a Go `int`, so it is an integer
here and may be zero or negative. -/
structure MasterProfile where
  isHosted : Bool
  isPrivate : Bool
  usesAvailabilitySet : Bool
  Count : Int
  deriving DecidableEq, Repr

/-- Modelled from the spec: the identity mode of the orchestrator settings; only
"system-assigned" is distinguished by the code. -/
inductive IdentityMode where
  | systemAssigned
  | notSystemAssigned
  deriving DecidableEq, Repr

/-- Modelled from the spec: the orchestrator settings (identity mode and the set of
enabled add-ons), declared outside the source file. -/
structure OrchestratorSettings where
  identityMode : IdentityMode
  enabledAddons : List String
  deriving DecidableEq, Repr

/-- Modelled from the spec: `api.ContainerService`, the cluster configuration: an ordered
sequence of agent pools, one master profile, and the orchestrator settings. -/
structure ContainerService where
  AgentPoolProfiles : List AgentPoolProfile
  MasterProfile : MasterProfile
  OrchestratorSettings : OrchestratorSettings
  deriving DecidableEq, Repr

/-- Modelled from the spec: the constant `common.AppGwIngressAddonName` is declared outside
the source file; it names the application-gateway ingress add-on. -/
def AppGwIngressAddonName : String := "appgw-ingress"

/-- Modelled from the spec: `IsHostedMasterProfile` (package `api`) reads the
master's `isHosted` flag. -/
def IsHostedMasterProfile (cs : ContainerService) : Bool :=
  cs.MasterProfile.isHosted

/-- Modelled from the spec: `IsPrivateCluster` (package `api`) reads the `isPrivate` flag. -/
def IsPrivateCluster (cs : ContainerService) : Bool :=
  cs.MasterProfile.isPrivate

/-- Modelled from the spec: `MasterProfile.IsAvailabilitySet` (package `api`) reads the
master's `usesAvailabilitySet` flag. -/
def MasterProfile.IsAvailabilitySet (m : MasterProfile) : Bool :=
  m.usesAvailabilitySet

/-- Modelled from the spec: `AgentPoolProfile.IsAvailabilitySets` (package `api`) reads the
pool's `usesAvailabilitySet` flag. -/
def AgentPoolProfile.IsAvailabilitySets (p : AgentPoolProfile) : Bool :=
  p.usesAvailabilitySet

/-- Modelled from the spec: `AgentPoolProfile.IsStorageAccount` (package `api`) reads the
pool's `usesStorageAccount` flag. -/
def AgentPoolProfile.IsStorageAccount (p : AgentPoolProfile) : Bool :=
  p.usesStorageAccount

/-- Modelled from the spec: `AgentPoolProfile.IsVirtualMachineScaleSets` (package `api`)
reads the pool's `usesScaleSet` flag. -/
def AgentPoolProfile.IsVirtualMachineScaleSets (p : AgentPoolProfile) : Bool :=
  p.usesScaleSet

/-- Modelled from the spec: `HasVMASAgentPool` (package `api`) is not in the source file.
The spec states the storage-account outputs it guards are emitted iff at least one agent
pool has `usesAvailabilitySet` and `usesStorageAccount`, checked across the whole pool
sequence. -/
def HasVMASAgentPool (cs : ContainerService) : Bool :=
  cs.AgentPoolProfiles.any (fun p => p.usesAvailabilitySet && p.usesStorageAccount)

/-- Modelled from the spec: `KubernetesConfig.IsAddonEnabled` (package `api`) is a lookup
in the set of enabled add-ons. -/
def IsAddonEnabled (cs : ContainerService) (addonName : String) : Bool :=
  cs.OrchestratorSettings.enabledAddons.contains addonName

/-- Modelled from the spec: `KubernetesConfig.SystemAssignedIDEnabled` (package `api`)
holds iff the identity mode is system-assigned. -/
def SystemAssignedIDEnabled (cs : ContainerService) : Bool :=
  decide (cs.OrchestratorSettings.identityMode = IdentityMode.systemAssigned)

/-! ## Output sets -/

/-- An output descriptor, the Go map `{"type": ..., "value": ...}`. The descriptor of
`roleAssignmentNames` is a `map[string]string` with the same two entries. -/
structure Output where
  type : String
  value : String
  deriving DecidableEq, Repr

/-- A Go `map[string]interface{}` of output descriptors: an association list whose keys
stay pairwise distinct under `Outputs.set`. -/
abbrev Outputs := List (String × Output)

/-- The Go assignment `m[k] = v`: overwrite the entry of `k`, or add a new one. -/
def Outputs.set : Outputs → String → Output → Outputs
  | [], k, v => [(k, v)]
  | (k', v') :: rest, k, v =>
    if k' = k then (k, v) :: rest else (k', v') :: Outputs.set rest k v

/-- The Go lookup `m[k]`, `none` when the key is absent. -/
def Outputs.get? : Outputs → String → Option Output
  | [], _ => none
  | (k', v') :: rest, k => if k' = k then some v' else Outputs.get? rest k

/-- The names (keys) of an output set. -/
def Outputs.keys (m : Outputs) : List String := m.map Prod.fst

/-- Membership of a key, `_, ok := m[k]`. -/
def Outputs.contains (m : Outputs) (k : String) : Bool := (m.get? k).isSome

/-- Go `strings.Join(elems, sep)`. -/
def Join : List String → String → String
  | [], _ => ""
  | [a], _ => a
  | a :: b :: rest, sep => a ++ sep ++ Join (b :: rest) sep

/-! ## `getMasterOutputs` -/

/-- `getMasterOutputs` (source lines 139-164). -/
def getMasterOutputs (cs : ContainerService) : Outputs :=
  let outputs : Outputs := []
  let masterFQDN : String :=
    if !IsPrivateCluster cs then
      "[reference(concat('Microsoft.Network/publicIPAddresses/', variables('masterPublicIPAddressName'))).dnsSettings.fqdn]"
    else ""
  let outputs := outputs.set "masterFQDN" ⟨"string", masterFQDN⟩
  let outputs :=
    if HasVMASAgentPool cs then
      (outputs.set "agentStorageAccountSuffix" ⟨"string", "[variables('storageAccountBaseName')]"⟩).set
        "agentStorageAccountPrefixes" ⟨"array", "[variables('storageAccountPrefixes')]"⟩
    else outputs
  outputs

/-! ## `GetKubernetesOutputs` -/

/-- The map literal that initialises `outputs` (source lines 15-48). -/
def baseOutputs : Outputs :=
  [ ("resourceGroup", ⟨"string", "[variables('resourceGroup')]"⟩),
    ("vnetResourceGroup", ⟨"string", "[variables('virtualNetworkResourceGroupName')]"⟩),
    ("subnetName", ⟨"string", "[variables('subnetName')]"⟩),
    ("securityGroupName", ⟨"string", "[variables('nsgName')]"⟩),
    ("virtualNetworkName", ⟨"string", "[variables('virtualNetworkName')]"⟩),
    ("routeTableName", ⟨"string", "[variables('routeTableName')]"⟩),
    ("primaryAvailabilitySetName", ⟨"string", "[variables('primaryAvailabilitySetName')]"⟩),
    ("primaryScaleSetName", ⟨"string", "[variables('primaryScaleSetName')]"⟩) ]

/-- The loop `for k, v := range getMasterOutputs(cs) { outputs[k] = v }` (lines 53-55). -/
def mergeOutputs (outputs : Outputs) (src : Outputs) : Outputs :=
  src.foldl (fun o kv => o.set kv.1 kv.2) outputs

/-- The body of the agent-pool loop (source lines 59-73). -/
def agentPoolOutputs (outputs : Outputs) (profile : AgentPoolProfile) : Outputs :=
  if profile.IsAvailabilitySets && profile.IsStorageAccount then
    let agentName := profile.Name
    let outputs := outputs.set (agentName ++ "StorageAccountOffset")
      ⟨"int", "[variables('" ++ agentName ++ "StorageAccountOffset')]"⟩
    let outputs := outputs.set (agentName ++ "StorageAccountCount")
      ⟨"int", "[variables('" ++ agentName ++ "StorageAccountsCount')]"⟩
    let outputs := outputs.set (agentName ++ "SubnetName")
      ⟨"string", "[variables('" ++ agentName ++ "SubnetName')]"⟩
    outputs
  else outputs

/-- The add-on block (source lines 76-89). -/
def addonOutputs (cs : ContainerService) (outputs : Outputs) : Outputs :=
  if IsAddonEnabled cs AppGwIngressAddonName then
    let outputs := outputs.set "applicationGatewayName" ⟨"string", "[variables('appGwName')]"⟩
    let outputs := outputs.set "appGwIdentityResourceId"
      ⟨"string", "[variables('appGwICIdentityId')]"⟩
    let outputs := outputs.set "appGwIdentityClientId"
      ⟨"string", "[reference(variables('appGwICIdentityId'), variables('apiVersionManagedIdentity')).clientId]"⟩
    outputs
  else outputs

/-- The `masterVMReference` string for one master index (source line 104); the index runs
over `0 .. Count-1`, so `%d` prints a natural number. -/
def masterVMReference (masterIdx : Nat) : String :=
  "reference(resourceId(resourceGroup().name, 'Microsoft.Compute/virtualMachines', concat(variables('masterVMNamePrefix'), "
    ++ toString masterIdx ++ ")), '2017-03-30', 'Full').identity.principalId"

/-- The element appended at source lines 106-108 for one pool name and master index. -/
def masterRoleAssignment (agentPoolName : String) (masterIdx : Nat) : String :=
  let resourceGroup := "variables('" ++ agentPoolName ++ "SubnetResourceGroup')"
  "resourceId(" ++ resourceGroup
    ++ ", 'Microsoft.Network/virtualNetworks/providers/roleAssignments', variables('"
    ++ agentPoolName ++ "Vnet'), 'Microsoft.Authorization', guid(uniqueString("
    ++ masterVMReference masterIdx ++ ")))"

/-- The slice `masterRoleAssignmentForAgentPools` after the nested loops of source lines
100-110: pools outside, `masterIdx := 0; masterIdx < Count; masterIdx++` inside (no
iteration when `Count ≤ 0`). -/
def masterRoleAssignmentForAgentPools (cs : ContainerService) : List String :=
  cs.AgentPoolProfiles.foldl
    (fun acc agentPool =>
      (List.range cs.MasterProfile.Count.toNat).foldl
        (fun acc masterIdx => acc ++ [masterRoleAssignment agentPool.Name masterIdx]) acc)
    []

/-- The slice `vmssSysRoleAssignmentVariables` after the loop of source lines 117-122. -/
def vmssSysRoleAssignmentVariables (cs : ContainerService) : List String :=
  cs.AgentPoolProfiles.foldl
    (fun acc profile =>
      if profile.IsVirtualMachineScaleSets then
        acc ++ ["variables('" ++ profile.Name ++ "VMSSSysRoleAssignmentName')"]
      else acc)
    []

/-- The string `outputValue` at source line 132, built by the appends of lines 92-126. -/
def roleAssignmentOutputValue (cs : ContainerService) : String :=
  let outputValue := "variables('vmasRoleAssignmentNames')"
  let outputValue :=
    if cs.MasterProfile.IsAvailabilitySet then
      outputValue ++ (", createArray(" ++ Join (masterRoleAssignmentForAgentPools cs) ", " ++ ")")
    else outputValue
  let outputValue :=
    if (vmssSysRoleAssignmentVariables cs).length > 0 then
      outputValue ++ (", createArray(" ++ Join (vmssSysRoleAssignmentVariables cs) ", " ++ ")")
    else outputValue
  outputValue

/-- The role-assignment block (source lines 91-134). -/
def roleAssignmentOutputs (cs : ContainerService) (outputs : Outputs) : Outputs :=
  if SystemAssignedIDEnabled cs then
    outputs.set "roleAssignmentNames"
      ⟨"array", "[concat(" ++ roleAssignmentOutputValue cs ++ ")]"⟩
  else outputs

/-- `GetKubernetesOutputs` (source lines 14-137). -/
def GetKubernetesOutputs (cs : ContainerService) : Outputs :=
  let outputs := baseOutputs
  let isHostedMaster := IsHostedMasterProfile cs
  let outputs := if !isHostedMaster then mergeOutputs outputs (getMasterOutputs cs) else outputs
  let outputs := cs.AgentPoolProfiles.foldl agentPoolOutputs outputs
  let outputs := addonOutputs cs outputs
  let outputs := roleAssignmentOutputs cs outputs
  outputs

/-! ## Vocabulary of the properties -/

/-- The three output names the agent-pool loop writes for a pool name. -/
def poolKeys (name : String) : List String :=
  [name ++ "StorageAccountOffset", name ++ "StorageAccountCount", name ++ "SubnetName"]

/-- A name that no pool can produce: it ends in none of the three per-pool suffixes. -/
def FixedName (k : String) : Prop :=
  ¬ ("StorageAccountOffset".data <:+ k.data) ∧ ¬ ("StorageAccountCount".data <:+ k.data) ∧
    ¬ ("SubnetName".data <:+ k.data)

instance instDecidableFixedName (k : String) : Decidable (FixedName k) := by
  unfold FixedName; infer_instance

/-- The role-assignment resource-id expression of a pool name and a master index, as one
literal with the two holes filled in. -/
def specMasterRoleAssignmentExpr (name : String) (i : Nat) : String :=
  "resourceId(variables('" ++ name ++ "SubnetResourceGroup'), 'Microsoft.Network/virtualNetworks/providers/roleAssignments', variables('"
    ++ name ++ "Vnet'), 'Microsoft.Authorization', guid(uniqueString(reference(resourceId(resourceGroup().name, 'Microsoft.Compute/virtualMachines', concat(variables('masterVMNamePrefix'), "
    ++ toString i ++ ")), '2017-03-30', 'Full').identity.principalId)))"

/-- The master cross-product expressions: pools in sequence order outside, master indices
`0 .. Count-1` inside. -/
def specMasterExprs (cs : ContainerService) : List String :=
  cs.AgentPoolProfiles.flatMap (fun p =>
    (List.range cs.MasterProfile.Count.toNat).map (specMasterRoleAssignmentExpr p.Name))

/-- The scale-set variable references: one per pool that uses a scale set, in sequence
order. -/
def specScaleSetVars (cs : ContainerService) : List String :=
  (cs.AgentPoolProfiles.filter (fun p => p.usesScaleSet)).map
    (fun p => "variables('" ++ p.Name ++ "VMSSSysRoleAssignmentName')")

/-- The terms of the concatenation in their fixed order: the base term always, the master
array iff the master uses an availability set, the scale-set array iff some pool uses a
scale set. -/
def specRoleAssignmentTerms (cs : ContainerService) : List String :=
  ["variables('vmasRoleAssignmentNames')"]
    ++ (if cs.MasterProfile.usesAvailabilitySet then
          ["createArray(" ++ Join (specMasterExprs cs) ", " ++ ")"] else [])
    ++ (if cs.AgentPoolProfiles.any (fun p => p.usesScaleSet) then
          ["createArray(" ++ Join (specScaleSetVars cs) ", " ++ ")"] else [])

/-- The configuration with system-assigned identity, an availability-set master and no
agent pool. -/
def noPoolConfig : ContainerService :=
  ⟨[], ⟨false, false, true, 1⟩, ⟨IdentityMode.systemAssigned, []⟩⟩

/-- The configuration of the spec's example: private, self-hosted master with
availability set and count 3, one pool "pool1" on availability set and storage account,
system-assigned identity. -/
def pool1Config : ContainerService :=
  ⟨[⟨"pool1", true, true, false⟩], ⟨false, true, true, 3⟩, ⟨IdentityMode.systemAssigned, []⟩⟩

/-- The predicate of the agent-pool loop (source line 59). -/
def poolEmits (p : AgentPoolProfile) : Bool :=
  p.IsAvailabilitySets && p.IsStorageAccount

/-- The output names in the order the statements of `GetKubernetesOutputs` write them:
the map literal, the master outputs when the master is not hosted, the triad of every pool
that passes the test of line 59, the add-on block, the role-assignment block. -/
def writtenNames (cs : ContainerService) : List String :=
  baseOutputs.keys
    ++ (if !IsHostedMasterProfile cs then (getMasterOutputs cs).keys else [])
    ++ (cs.AgentPoolProfiles.filter poolEmits).flatMap (fun p => poolKeys p.Name)
    ++ (if IsAddonEnabled cs AppGwIngressAddonName then
          ["applicationGatewayName", "appGwIdentityResourceId", "appGwIdentityClientId"]
        else [])
    ++ (if SystemAssignedIDEnabled cs then ["roleAssignmentNames"] else [])

/-- The names written outside the agent-pool loop. -/
def fixedNames : List String :=
  ["resourceGroup", "vnetResourceGroup", "subnetName", "securityGroupName",
   "virtualNetworkName", "routeTableName", "primaryAvailabilitySetName",
   "primaryScaleSetName", "masterFQDN", "agentStorageAccountSuffix",
   "agentStorageAccountPrefixes", "applicationGatewayName", "appGwIdentityResourceId",
   "appGwIdentityClientId", "roleAssignmentNames"]

/-- A mixed topology: "pool1" on availability set and storage account, "pool2" and
"pool3" on scale sets, a self-hosted public master with availability set and count 1,
system-assigned identity. -/
def mixedConfig : ContainerService :=
  ⟨[⟨"pool1", true, true, false⟩, ⟨"pool2", false, false, true⟩,
    ⟨"pool3", false, false, true⟩],
   ⟨false, false, true, 1⟩, ⟨IdentityMode.systemAssigned, []⟩⟩

/-- A configuration without any optional role-assignment term: a master that does not use
an availability set (count 3) and two pools that do not use scale sets. -/
def plainConfig : ContainerService :=
  ⟨[⟨"pool1", true, true, false⟩, ⟨"pool2", true, false, false⟩],
   ⟨false, false, false, 3⟩, ⟨IdentityMode.systemAssigned, []⟩⟩

/-- A configuration with a negative master count: system-assigned identity, a self-hosted
private master with availability set and count -1, one pool "pool1". -/
def negativeCountConfig : ContainerService :=
  ⟨[⟨"pool1", true, true, false⟩], ⟨false, true, true, -1⟩, ⟨IdentityMode.systemAssigned, []⟩⟩

/-- A configuration whose identity mode is not system-assigned, with the ingress add-on
enabled. -/
def userAssignedConfig : ContainerService :=
  ⟨[⟨"pool1", true, true, false⟩], ⟨false, false, true, 3⟩,
   ⟨IdentityMode.notSystemAssigned, ["appgw-ingress"]⟩⟩

/-- The descriptor the agent-pool loop writes under name `k` for a pool called `n`, if `k`
is one of the three names of that pool (the writes of source lines 61-72, last first). -/
def poolLookupName (n : String) (k : String) : Option Output :=
  if n ++ "SubnetName" = k then
    some ⟨"string", "[variables('" ++ n ++ "SubnetName')]"⟩
  else if n ++ "StorageAccountCount" = k then
    some ⟨"int", "[variables('" ++ n ++ "StorageAccountsCount')]"⟩
  else if n ++ "StorageAccountOffset" = k then
    some ⟨"int", "[variables('" ++ n ++ "StorageAccountOffset')]"⟩
  else none

/-- The configuration `cs` with its agent-pool sequence replaced by `pools`. -/
def withAgentPools (cs : ContainerService) (pools : List AgentPoolProfile) :
    ContainerService :=
  { cs with AgentPoolProfiles := pools }

/-- A list of characters is well-bracketed when every prefix has at least as many '(' as
')' and the totals are equal. -/
def WellBracketed (l : List Char) : Prop :=
  (∀ n, (l.take n).count ')' ≤ (l.take n).count '(') ∧ l.count '(' = l.count ')'

/-- The nesting depth after scanning `l` from depth `d`; `none` when a ')' has no
matching '('. -/
def parenDepth : Nat → List Char → Option Nat
  | d, [] => some d
  | d, c :: cs =>
    if c = '(' then parenDepth (d + 1) cs
    else if c = ')' then (if d = 0 then none else parenDepth (d - 1) cs)
    else parenDepth d cs

/-- A scan of `l` returns to the depth it started from, whatever that depth is. -/
def Neutral (l : List Char) : Prop := ∀ d, parenDepth d l = some d

/-! ## Strings -/

theorem append_ne_of_not_suffix (a s t : String) (h : ¬ (s.data <:+ t.data)) : a ++ s ≠ t := by
  intro e
  apply h
  refine ⟨a.data, ?_⟩
  rw [← String.data_append, e]

theorem append_right_cancel (a b s : String) (h : a ++ s = b ++ s) : a = b := by
  apply String.ext
  have e := congrArg String.data h
  rw [String.data_append, String.data_append] at e
  exact List.append_cancel_right e

theorem append_ne_append (a b s t : String) (h1 : ¬ (s.data <:+ t.data))
    (h2 : ¬ (t.data <:+ s.data)) : a ++ s ≠ b ++ t := by
  intro e
  have e1 : s.data <:+ (b ++ t).data := ⟨a.data, by rw [← String.data_append, e]⟩
  have e2 : t.data <:+ (b ++ t).data := ⟨b.data, by rw [← String.data_append]⟩
  rcases List.suffix_or_suffix_of_suffix e1 e2 with h | h
  · exact h1 h
  · exact h2 h

theorem not_mem_poolKeys_of_fixed (k name : String) (h : FixedName k) : k ∉ poolKeys name := by
  obtain ⟨h1, h2, h3⟩ := h
  simp only [poolKeys, List.mem_cons, List.mem_singleton, List.not_mem_nil, or_false, not_or]
  exact ⟨fun e => append_ne_of_not_suffix _ _ _ h1 e.symm,
    fun e => append_ne_of_not_suffix _ _ _ h2 e.symm,
    fun e => append_ne_of_not_suffix _ _ _ h3 e.symm⟩

theorem poolKeys_disjoint (a b : String) (h : a ≠ b) : ∀ k ∈ poolKeys a, k ∉ poolKeys b := by
  intro k hk hk'
  simp only [poolKeys, List.mem_cons, List.mem_singleton, List.not_mem_nil, or_false] at hk hk'
  rcases hk with rfl | rfl | rfl <;> rcases hk' with e | e | e
  · exact h (append_right_cancel _ _ _ e)
  · exact append_ne_append _ _ _ _ (by decide) (by decide) e
  · exact append_ne_append _ _ _ _ (by decide) (by decide) e
  · exact append_ne_append _ _ _ _ (by decide) (by decide) e
  · exact h (append_right_cancel _ _ _ e)
  · exact append_ne_append _ _ _ _ (by decide) (by decide) e
  · exact append_ne_append _ _ _ _ (by decide) (by decide) e
  · exact append_ne_append _ _ _ _ (by decide) (by decide) e
  · exact h (append_right_cancel _ _ _ e)

theorem poolKeys_nodup (a : String) : (poolKeys a).Nodup := by
  simp only [poolKeys, List.nodup_cons, List.mem_cons, List.mem_singleton, List.not_mem_nil,
    or_false, not_or, List.nodup_nil, and_true, not_false_eq_true]
  exact ⟨⟨append_ne_append _ _ _ _ (by decide) (by decide),
    append_ne_append _ _ _ _ (by decide) (by decide)⟩,
    append_ne_append _ _ _ _ (by decide) (by decide)⟩

/-! ## Output sets -/

theorem get?_set (m : Outputs) (k k' : String) (v : Output) :
    (m.set k v).get? k' = if k = k' then some v else m.get? k' := by
  induction m with
  | nil => simp [Outputs.set, Outputs.get?]
  | cons kv rest ih =>
    obtain ⟨k0, v0⟩ := kv
    by_cases h0 : k0 = k
    · subst h0
      by_cases h1 : k0 = k' <;> simp [Outputs.set, Outputs.get?, h1]
    · by_cases h1 : k0 = k'
      · subst h1
        have : ¬ k = k0 := fun e => h0 e.symm
        simp [Outputs.set, Outputs.get?, h0, this]
      · simp [Outputs.set, Outputs.get?, h0, h1, ih]

theorem get?_set_self (m : Outputs) (k : String) (v : Output) : (m.set k v).get? k = some v := by
  rw [get?_set, if_pos rfl]

theorem get?_set_of_ne (m : Outputs) (k k' : String) (v : Output) (h : k ≠ k') :
    (m.set k v).get? k' = m.get? k' := by
  rw [get?_set, if_neg h]

theorem get?_eq_none_iff (m : Outputs) (k : String) : m.get? k = none ↔ k ∉ m.keys := by
  induction m with
  | nil => simp [Outputs.get?, Outputs.keys]
  | cons kv rest ih =>
    obtain ⟨k0, v0⟩ := kv
    by_cases h0 : k0 = k
    · subst h0
      simp [Outputs.get?, Outputs.keys]
    · have h0' : ¬ k = k0 := fun e => h0 e.symm
      simp only [Outputs.keys] at ih
      simp [Outputs.get?, Outputs.keys, h0, h0', ih]

theorem contains_iff_mem_keys (m : Outputs) (k : String) :
    m.contains k = true ↔ k ∈ m.keys := by
  unfold Outputs.contains
  rw [Option.isSome_iff_ne_none, Ne, get?_eq_none_iff, not_not]

theorem keys_set_of_not_mem (m : Outputs) (k : String) (v : Output) (h : k ∉ m.keys) :
    (m.set k v).keys = m.keys ++ [k] := by
  induction m with
  | nil => simp [Outputs.set, Outputs.keys]
  | cons kv rest ih =>
    obtain ⟨k0, v0⟩ := kv
    simp only [Outputs.keys, List.map_cons, List.mem_cons, not_or] at h ih ⊢
    have h0 : ¬ k0 = k := fun e => h.1 e.symm
    simp [Outputs.set, h0, ih h.2]

theorem keys_set_of_mem (m : Outputs) (k : String) (v : Output) (h : k ∈ m.keys) :
    (m.set k v).keys = m.keys := by
  induction m with
  | nil => simp [Outputs.keys] at h
  | cons kv rest ih =>
    obtain ⟨k0, v0⟩ := kv
    by_cases h0 : k0 = k
    · subst h0
      simp [Outputs.set, Outputs.keys]
    · simp only [Outputs.keys, List.map_cons, List.mem_cons] at h ih ⊢
      have hr : k ∈ List.map Prod.fst rest := by
        rcases h with e | e
        · exact absurd e.symm h0
        · exact e
      simp [Outputs.set, h0, ih hr]

theorem keys_nodup_set (m : Outputs) (k : String) (v : Output) (h : m.keys.Nodup) :
    (m.set k v).keys.Nodup := by
  by_cases hk : k ∈ m.keys
  · rw [keys_set_of_mem m k v hk]; exact h
  · rw [keys_set_of_not_mem m k v hk]
    exact List.nodup_append.mpr ⟨h, List.nodup_singleton k, by
      intro x hx hx'
      simp only [List.mem_singleton] at hx'
      exact hk (hx' ▸ hx)⟩


/-! ## The stages of `GetKubernetesOutputs` -/

theorem get?_append (a b : Outputs) (k : String) :
    Outputs.get? (a ++ b) k = (a.get? k).orElse (fun _ => b.get? k) := by
  induction a with
  | nil => simp [Outputs.get?]
  | cons kv rest ih =>
    obtain ⟨k0, v0⟩ := kv
    by_cases h0 : k0 = k <;> simp [Outputs.get?, h0, ih]

theorem getMasterOutputs_eq (cs : ContainerService) :
    getMasterOutputs cs =
      ("masterFQDN", (⟨"string",
        if IsPrivateCluster cs then ""
        else "[reference(concat('Microsoft.Network/publicIPAddresses/', variables('masterPublicIPAddressName'))).dnsSettings.fqdn]"⟩ : Output))
      :: (if HasVMASAgentPool cs then
          [("agentStorageAccountSuffix", ⟨"string", "[variables('storageAccountBaseName')]"⟩),
           ("agentStorageAccountPrefixes", ⟨"array", "[variables('storageAccountPrefixes')]"⟩)]
        else []) := by
  unfold getMasterOutputs
  cases IsPrivateCluster cs <;> cases HasVMASAgentPool cs <;> rfl

theorem mergeOutputs_getMasterOutputs (cs : ContainerService) :
    mergeOutputs baseOutputs (getMasterOutputs cs) = baseOutputs ++ getMasterOutputs cs := by
  rw [getMasterOutputs_eq]
  cases IsPrivateCluster cs <;> cases HasVMASAgentPool cs <;> rfl

theorem get?_agentPoolOutputs (m : Outputs) (p : AgentPoolProfile) (k : String)
    (h : (p.usesAvailabilitySet && p.usesStorageAccount) = true → k ∉ poolKeys p.Name) :
    (agentPoolOutputs m p).get? k = m.get? k := by
  unfold agentPoolOutputs AgentPoolProfile.IsAvailabilitySets AgentPoolProfile.IsStorageAccount
  by_cases hq : (p.usesAvailabilitySet && p.usesStorageAccount) = true
  · have hk := h hq
    simp only [poolKeys, List.mem_cons, List.mem_singleton, List.not_mem_nil, or_false,
      not_or] at hk
    rw [if_pos hq]
    simp only []
    rw [get?_set_of_ne _ _ _ _ (fun e => hk.2.2 e.symm),
      get?_set_of_ne _ _ _ _ (fun e => hk.2.1 e.symm),
      get?_set_of_ne _ _ _ _ (fun e => hk.1 e.symm)]
  · rw [if_neg hq]

theorem get?_foldl_agentPoolOutputs (pools : List AgentPoolProfile) (m : Outputs) (k : String)
    (h : ∀ p ∈ pools, (p.usesAvailabilitySet && p.usesStorageAccount) = true →
      k ∉ poolKeys p.Name) :
    (pools.foldl agentPoolOutputs m).get? k = m.get? k := by
  induction pools generalizing m with
  | nil => rfl
  | cons p rest ih =>
    rw [List.foldl_cons, ih _ (fun q hq => h q (List.mem_cons_of_mem _ hq)),
      get?_agentPoolOutputs _ _ _ (h p (List.mem_cons_self _ _))]

theorem get?_addonOutputs_of_ne (cs : ContainerService) (m : Outputs) (k : String)
    (h1 : k ≠ "applicationGatewayName") (h2 : k ≠ "appGwIdentityResourceId")
    (h3 : k ≠ "appGwIdentityClientId") : (addonOutputs cs m).get? k = m.get? k := by
  unfold addonOutputs
  split
  · simp only []
    rw [get?_set_of_ne _ _ _ _ h3.symm, get?_set_of_ne _ _ _ _ h2.symm,
      get?_set_of_ne _ _ _ _ h1.symm]
  · rfl

theorem get?_roleAssignmentOutputs_of_ne (cs : ContainerService) (m : Outputs) (k : String)
    (h : k ≠ "roleAssignmentNames") : (roleAssignmentOutputs cs m).get? k = m.get? k := by
  unfold roleAssignmentOutputs
  split
  · rw [get?_set_of_ne _ _ _ _ h.symm]
  · rfl

/-- A name outside the per-pool and add-on names is looked up, before the role-assignment
block, in the outputs of the base and master stages. -/
theorem get?_before_roleAssignment (cs : ContainerService) (k : String)
    (hf : FixedName k) (h1 : k ≠ "applicationGatewayName")
    (h2 : k ≠ "appGwIdentityResourceId") (h3 : k ≠ "appGwIdentityClientId") :
    (addonOutputs cs (cs.AgentPoolProfiles.foldl agentPoolOutputs
      (if !IsHostedMasterProfile cs then mergeOutputs baseOutputs (getMasterOutputs cs)
        else baseOutputs))).get? k =
      if IsHostedMasterProfile cs then baseOutputs.get? k
      else Outputs.get? (baseOutputs ++ getMasterOutputs cs) k := by
  rw [get?_addonOutputs_of_ne _ _ _ h1 h2 h3,
    get?_foldl_agentPoolOutputs _ _ _ (fun p _ _ => not_mem_poolKeys_of_fixed k p.Name hf)]
  cases IsHostedMasterProfile cs
  · simp [mergeOutputs_getMasterOutputs]
  · simp

/-- A name outside the per-pool, add-on and role-assignment names is looked up in the
outputs of the base and master stages. -/
theorem get?_GetKubernetesOutputs_of_fixed (cs : ContainerService) (k : String)
    (hf : FixedName k) (h1 : k ≠ "applicationGatewayName")
    (h2 : k ≠ "appGwIdentityResourceId") (h3 : k ≠ "appGwIdentityClientId")
    (h4 : k ≠ "roleAssignmentNames") :
    (GetKubernetesOutputs cs).get? k =
      if IsHostedMasterProfile cs then baseOutputs.get? k
      else Outputs.get? (baseOutputs ++ getMasterOutputs cs) k := by
  unfold GetKubernetesOutputs
  simp only []
  rw [get?_roleAssignmentOutputs_of_ne _ _ _ h4, get?_before_roleAssignment cs k hf h1 h2 h3]

theorem get?_roleAssignmentNames (cs : ContainerService) :
    (GetKubernetesOutputs cs).get? "roleAssignmentNames" =
      if SystemAssignedIDEnabled cs then
        some ⟨"array", "[concat(" ++ roleAssignmentOutputValue cs ++ ")]"⟩
      else none := by
  unfold GetKubernetesOutputs roleAssignmentOutputs
  simp only []
  cases SystemAssignedIDEnabled cs
  · simp only [Bool.false_eq_true, if_false]
    rw [get?_before_roleAssignment cs _ (by decide) (by decide) (by decide) (by decide),
      get?_append, getMasterOutputs_eq]
    cases IsHostedMasterProfile cs <;> cases HasVMASAgentPool cs <;> rfl
  · simp only [if_true]
    rw [get?_set_self]

/-! ## The role-assignment expression -/

theorem foldl_append_singleton {α β : Type} (f : α → β) (l : List α) (acc : List β) :
    l.foldl (fun acc x => acc ++ [f x]) acc = acc ++ l.map f := by
  induction l generalizing acc with
  | nil => simp
  | cons a rest ih => simp [ih]

theorem masterRoleAssignmentForAgentPools_eq (cs : ContainerService) :
    masterRoleAssignmentForAgentPools cs =
      cs.AgentPoolProfiles.flatMap (fun p =>
        (List.range cs.MasterProfile.Count.toNat).map (masterRoleAssignment p.Name)) := by
  unfold masterRoleAssignmentForAgentPools
  have key : ∀ (pools : List AgentPoolProfile) (acc : List String),
      pools.foldl (fun acc agentPool =>
        (List.range cs.MasterProfile.Count.toNat).foldl
          (fun acc masterIdx => acc ++ [masterRoleAssignment agentPool.Name masterIdx]) acc) acc
      = acc ++ pools.flatMap (fun p =>
        (List.range cs.MasterProfile.Count.toNat).map (masterRoleAssignment p.Name)) := by
    intro pools
    induction pools with
    | nil => intro acc; simp
    | cons p rest ih =>
      intro acc
      rw [List.foldl_cons, ih, foldl_append_singleton, List.flatMap_cons, List.append_assoc]
  simpa using key cs.AgentPoolProfiles []

theorem vmssSysRoleAssignmentVariables_eq (cs : ContainerService) :
    vmssSysRoleAssignmentVariables cs =
      (cs.AgentPoolProfiles.filter (fun p => p.usesScaleSet)).map
        (fun p => "variables('" ++ p.Name ++ "VMSSSysRoleAssignmentName')") := by
  unfold vmssSysRoleAssignmentVariables AgentPoolProfile.IsVirtualMachineScaleSets
  have key : ∀ (pools : List AgentPoolProfile) (acc : List String),
      pools.foldl (fun acc profile =>
        if profile.usesScaleSet = true then
          acc ++ ["variables('" ++ profile.Name ++ "VMSSSysRoleAssignmentName')"]
        else acc) acc
      = acc ++ (pools.filter (fun p => p.usesScaleSet)).map
        (fun p => "variables('" ++ p.Name ++ "VMSSSysRoleAssignmentName')") := by
    intro pools
    induction pools with
    | nil => intro acc; simp
    | cons p rest ih =>
      intro acc
      rw [List.foldl_cons, ih]
      cases h : p.usesScaleSet <;> simp [h]
  simpa using key cs.AgentPoolProfiles []

theorem vmss_length_pos_iff (cs : ContainerService) :
    (vmssSysRoleAssignmentVariables cs).length > 0 ↔
      cs.AgentPoolProfiles.any (fun p => p.usesScaleSet) = true := by
  rw [vmssSysRoleAssignmentVariables_eq, List.length_map, gt_iff_lt, List.length_pos,
    Ne, List.filter_eq_nil_iff]
  simp

theorem comma_createArray (x : String) :
    ", createArray(" ++ x = ", " ++ ("createArray(" ++ x) := by
  rw [← String.append_assoc]; rfl

/-- C1: for every configuration the eight base outputs are present with type "string" and
their fixed variable-reference values; no later write (master, per-pool, add-on or
role-assignment output) overwrites one of them. -/
theorem base_outputs_present (cs : ContainerService) :
    (GetKubernetesOutputs cs).get? "resourceGroup"
        = some ⟨"string", "[variables('resourceGroup')]"⟩ ∧
    (GetKubernetesOutputs cs).get? "vnetResourceGroup"
        = some ⟨"string", "[variables('virtualNetworkResourceGroupName')]"⟩ ∧
    (GetKubernetesOutputs cs).get? "subnetName"
        = some ⟨"string", "[variables('subnetName')]"⟩ ∧
    (GetKubernetesOutputs cs).get? "securityGroupName"
        = some ⟨"string", "[variables('nsgName')]"⟩ ∧
    (GetKubernetesOutputs cs).get? "virtualNetworkName"
        = some ⟨"string", "[variables('virtualNetworkName')]"⟩ ∧
    (GetKubernetesOutputs cs).get? "routeTableName"
        = some ⟨"string", "[variables('routeTableName')]"⟩ ∧
    (GetKubernetesOutputs cs).get? "primaryAvailabilitySetName"
        = some ⟨"string", "[variables('primaryAvailabilitySetName')]"⟩ ∧
    (GetKubernetesOutputs cs).get? "primaryScaleSetName"
        = some ⟨"string", "[variables('primaryScaleSetName')]"⟩ := by
  refine ⟨?_, ?_, ?_, ?_, ?_, ?_, ?_, ?_⟩ <;>
  · rw [get?_GetKubernetesOutputs_of_fixed cs _ (by decide) (by decide) (by decide)
      (by decide) (by decide), get?_append]
    cases IsHostedMasterProfile cs <;> rfl

theorem masterRoleAssignment_eq_spec (name : String) (i : Nat) :
    masterRoleAssignment name i = specMasterRoleAssignmentExpr name i := by
  unfold masterRoleAssignment specMasterRoleAssignmentExpr masterVMReference
  apply String.ext
  simp only [String.data_append, List.append_assoc]
  rfl

theorem masterRoleAssignmentForAgentPools_eq_spec (cs : ContainerService) :
    masterRoleAssignmentForAgentPools cs = specMasterExprs cs := by
  rw [masterRoleAssignmentForAgentPools_eq]
  unfold specMasterExprs
  congr 1
  funext p
  congr 1
  funext i
  exact masterRoleAssignment_eq_spec p.Name i

theorem vmssSysRoleAssignmentVariables_eq_spec (cs : ContainerService) :
    vmssSysRoleAssignmentVariables cs = specScaleSetVars cs :=
  vmssSysRoleAssignmentVariables_eq cs

/-- C2: with system-assigned identity the value of roleAssignmentNames is
"[concat(" ++ T ++ ")]" where T is the ", "-join of the present terms in the fixed order
base term, master array (iff the master uses an availability set), scale-set array (iff
some pool uses a scale set). -/
theorem roleAssignmentNames_value_is_join_of_terms (cs : ContainerService)
    (hid : cs.OrchestratorSettings.identityMode = IdentityMode.systemAssigned) :
    (GetKubernetesOutputs cs).get? "roleAssignmentNames" =
      some ⟨"array", "[concat(" ++ Join (specRoleAssignmentTerms cs) ", " ++ ")]"⟩ := by
  have hs : SystemAssignedIDEnabled cs = true := by
    simp [SystemAssignedIDEnabled, hid]
  rw [get?_roleAssignmentNames, if_pos hs]
  refine congrArg some (congrArg (Output.mk "array") ?_)
  unfold roleAssignmentOutputValue specRoleAssignmentTerms MasterProfile.IsAvailabilitySet
  simp only []
  rw [← masterRoleAssignmentForAgentPools_eq_spec, ← vmssSysRoleAssignmentVariables_eq_spec]
  by_cases hv : (vmssSysRoleAssignmentVariables cs).length > 0
  · have ha := (vmss_length_pos_iff cs).mp hv
    rw [if_pos hv, if_pos ha]
    cases cs.MasterProfile.usesAvailabilitySet
    · simp only [Bool.false_eq_true, if_false, List.append_nil, List.cons_append,
        List.nil_append, Join]
      apply String.ext
      simp only [String.data_append, List.append_assoc]
      rfl
    · simp only [if_true, List.cons_append, List.nil_append, Join]
      apply String.ext
      simp only [String.data_append, List.append_assoc]
      rfl
  · have ha : ¬ (cs.AgentPoolProfiles.any (fun p => p.usesScaleSet) = true) :=
      fun h => hv ((vmss_length_pos_iff cs).mpr h)
    rw [if_neg hv, if_neg ha]
    cases cs.MasterProfile.usesAvailabilitySet
    · simp only [Bool.false_eq_true, if_false, List.append_nil, Join]
    · simp only [if_true, List.append_nil, List.cons_append, List.nil_append, Join]
      apply String.ext
      simp only [String.data_append, List.append_assoc]
      rfl

/-- Witness of C2 at the spec's example configuration. -/
theorem roleAssignmentNames_value_is_join_of_terms_witness :
    pool1Config.OrchestratorSettings.identityMode = IdentityMode.systemAssigned ∧
    (GetKubernetesOutputs pool1Config).get? "roleAssignmentNames" =
      some ⟨"array", "[concat(" ++ Join (specRoleAssignmentTerms pool1Config) ", " ++ ")]"⟩ :=
  ⟨rfl, roleAssignmentNames_value_is_join_of_terms pool1Config rfl⟩

/-- C3 (the code at the failing input): with system-assigned identity, an availability-set
master and no agent pool, the master array term is not suppressed: the value carries an
empty `createArray()`. -/
theorem noPool_roleAssignmentNames_has_empty_createArray :
    (GetKubernetesOutputs noPoolConfig).get? "roleAssignmentNames" =
      some ⟨"array", "[concat(variables('vmasRoleAssignmentNames'), createArray())]"⟩ ∧
    (GetKubernetesOutputs noPoolConfig).get? "roleAssignmentNames" ≠
      some ⟨"array", "[concat(variables('vmasRoleAssignmentNames'))]"⟩ := by
  decide

theorem length_flatMap_range {α β : Type} (f : α → Nat → β) (l : List α) (c : Nat) :
    (l.flatMap (fun a => (List.range c).map (f a))).length = l.length * c := by
  induction l with
  | nil => simp
  | cons a rest ih =>
    rw [List.flatMap_cons, List.length_append, ih, List.length_map, List.length_range,
      List.length_cons, Nat.succ_mul, Nat.add_comm]

theorem getElem?_flatMap_range {α β : Type} (f : α → Nat → β) (l : List α) (c p i : Nat)
    (a : α) (hp : l[p]? = some a) (hi : i < c) :
    (l.flatMap (fun a => (List.range c).map (f a)))[p * c + i]? = some (f a i) := by
  induction l generalizing p with
  | nil => simp at hp
  | cons b rest ih =>
    rw [List.flatMap_cons]
    cases p with
    | zero =>
      simp only [List.getElem?_cons_zero, Option.some.injEq] at hp
      subst hp
      rw [Nat.zero_mul, Nat.zero_add, List.getElem?_append_left (by simpa using hi)]
      simp [List.getElem?_range hi]
    | succ q =>
      simp only [List.getElem?_cons_succ] at hp
      have hlen : ((List.range c).map (f b)).length = c := by simp
      rw [List.getElem?_append_right (by rw [hlen, Nat.succ_mul]; omega), hlen]
      have e : (q + 1) * c + i - c = q * c + i := by rw [Nat.succ_mul]; omega
      rw [e]
      exact ih q hp

/-- C4: with system-assigned identity and an availability-set master of count `c ≥ 0`, the
list of master role-assignment expressions comma-joined inside `createArray( )` has exactly
`n * c` elements for `n` pools, and its element at position `p * c + i` is the expression
of pool `p` and master index `i` (pools outside, master indices inside). -/
theorem master_cross_product_order (cs : ContainerService) (c : Nat)
    (hid : cs.OrchestratorSettings.identityMode = IdentityMode.systemAssigned)
    (hAS : cs.MasterProfile.usesAvailabilitySet = true)
    (hc : cs.MasterProfile.Count = (c : Int)) :
    (GetKubernetesOutputs cs).get? "roleAssignmentNames" =
      some ⟨"array", "[concat(" ++ ("variables('vmasRoleAssignmentNames')"
        ++ (", createArray(" ++ Join (masterRoleAssignmentForAgentPools cs) ", " ++ ")")
        ++ (if (vmssSysRoleAssignmentVariables cs).length > 0 then
              ", createArray(" ++ Join (vmssSysRoleAssignmentVariables cs) ", " ++ ")"
            else "")) ++ ")]"⟩ ∧
    (masterRoleAssignmentForAgentPools cs).length = cs.AgentPoolProfiles.length * c ∧
    ∀ (p i : Nat) (pool : AgentPoolProfile), cs.AgentPoolProfiles[p]? = some pool → i < c →
      (masterRoleAssignmentForAgentPools cs)[p * c + i]? =
        some (specMasterRoleAssignmentExpr pool.Name i) := by
  have hs : SystemAssignedIDEnabled cs = true := by
    simp [SystemAssignedIDEnabled, hid]
  have hn : cs.MasterProfile.Count.toNat = c := by rw [hc]; rfl
  refine ⟨?_, ?_, ?_⟩
  · rw [get?_roleAssignmentNames, if_pos hs]
    unfold roleAssignmentOutputValue MasterProfile.IsAvailabilitySet
    simp only [hAS, if_true]
    by_cases hv : (vmssSysRoleAssignmentVariables cs).length > 0
    · rw [if_pos hv, if_pos hv]
    · rw [if_neg hv, if_neg hv, String.append_empty]
  · rw [masterRoleAssignmentForAgentPools_eq, hn, length_flatMap_range]
  · intro p i pool hp hi
    rw [masterRoleAssignmentForAgentPools_eq, hn,
      getElem?_flatMap_range (fun name => masterRoleAssignment name.Name) _ c p i pool hp hi,
      masterRoleAssignment_eq_spec]

/-- Witness of C4: one pool "pool1" and count 3 give exactly 3 expressions, for the
master indices 0, 1, 2. -/
theorem master_cross_product_order_witness :
    pool1Config.OrchestratorSettings.identityMode = IdentityMode.systemAssigned ∧
    pool1Config.MasterProfile.usesAvailabilitySet = true ∧
    pool1Config.MasterProfile.Count = ((3 : Nat) : Int) ∧
    (masterRoleAssignmentForAgentPools pool1Config).length = 1 * 3 ∧
    (masterRoleAssignmentForAgentPools pool1Config)[0 * 3 + 0]? =
      some (specMasterRoleAssignmentExpr "pool1" 0) ∧
    (masterRoleAssignmentForAgentPools pool1Config)[0 * 3 + 1]? =
      some (specMasterRoleAssignmentExpr "pool1" 1) ∧
    (masterRoleAssignmentForAgentPools pool1Config)[0 * 3 + 2]? =
      some (specMasterRoleAssignmentExpr "pool1" 2) :=
  have h := master_cross_product_order pool1Config 3 rfl rfl rfl
  ⟨rfl, rfl, rfl, h.2.1, h.2.2 0 0 ⟨"pool1", true, true, false⟩ rfl (by decide),
    h.2.2 0 1 ⟨"pool1", true, true, false⟩ rfl (by decide),
    h.2.2 0 2 ⟨"pool1", true, true, false⟩ rfl (by decide)⟩

/-- C5: roleAssignmentNames is a key of the result iff the identity mode is
system-assigned, and when present its type is "array"; with any other identity mode the
key is absent whatever the master profile, the agent pools and the add-ons are. -/
theorem roleAssignmentNames_present_iff_system_assigned (cs : ContainerService) :
    ((GetKubernetesOutputs cs).contains "roleAssignmentNames" = true ↔
      cs.OrchestratorSettings.identityMode = IdentityMode.systemAssigned) ∧
    ((GetKubernetesOutputs cs).get? "roleAssignmentNames").map Output.type =
      (if cs.OrchestratorSettings.identityMode = IdentityMode.systemAssigned
        then some "array" else none) := by
  unfold Outputs.contains
  rw [get?_roleAssignmentNames]
  unfold SystemAssignedIDEnabled
  by_cases h : cs.OrchestratorSettings.identityMode = IdentityMode.systemAssigned
  · simp [h]
  · simp [h]

/-! ## The names of the result -/

theorem fixedNames_fixed : ∀ k ∈ fixedNames, FixedName k := by decide

theorem keys_getMasterOutputs (cs : ContainerService) :
    (getMasterOutputs cs).keys =
      "masterFQDN" :: (if HasVMASAgentPool cs then
        ["agentStorageAccountSuffix", "agentStorageAccountPrefixes"] else []) := by
  rw [getMasterOutputs_eq]
  cases HasVMASAgentPool cs <;> rfl

theorem keys_agentPoolOutputs (m : Outputs) (p : AgentPoolProfile)
    (hm : ∀ k ∈ poolKeys p.Name, k ∉ m.keys) :
    (agentPoolOutputs m p).keys = m.keys ++ (if poolEmits p then poolKeys p.Name else []) := by
  unfold agentPoolOutputs poolEmits
  by_cases hq : (p.IsAvailabilitySets && p.IsStorageAccount) = true
  · rw [if_pos hq, if_pos hq]
    simp only []
    have hnd := poolKeys_nodup p.Name
    simp only [poolKeys, List.nodup_cons, List.mem_cons, List.mem_singleton, List.not_mem_nil,
      or_false, not_or] at hnd
    have h1 : p.Name ++ "StorageAccountOffset" ∉ m.keys := hm _ (by simp [poolKeys])
    have h2 : p.Name ++ "StorageAccountCount" ∉ m.keys := hm _ (by simp [poolKeys])
    have h3 : p.Name ++ "SubnetName" ∉ m.keys := hm _ (by simp [poolKeys])
    rw [keys_set_of_not_mem, keys_set_of_not_mem, keys_set_of_not_mem _ _ _ h1]
    · simp [poolKeys]
    · rw [keys_set_of_not_mem _ _ _ h1]
      simp only [List.mem_append, List.mem_singleton, not_or]
      exact ⟨h2, fun e => hnd.1.1 e.symm⟩
    · rw [keys_set_of_not_mem, keys_set_of_not_mem _ _ _ h1]
      · simp only [List.mem_append, List.mem_singleton, not_or]
        exact ⟨⟨h3, fun e => hnd.1.2 e.symm⟩, fun e => hnd.2.1 e.symm⟩
      · rw [keys_set_of_not_mem _ _ _ h1]
        simp only [List.mem_append, List.mem_singleton, not_or]
        exact ⟨h2, fun e => hnd.1.1 e.symm⟩
  · rw [if_neg hq, if_neg hq, List.append_nil]

theorem keys_foldl_agentPoolOutputs (pools : List AgentPoolProfile) (m : Outputs)
    (hn : (pools.map (fun p => p.Name)).Nodup)
    (hm : ∀ p ∈ pools, ∀ k ∈ poolKeys p.Name, k ∉ m.keys) :
    (pools.foldl agentPoolOutputs m).keys =
      m.keys ++ (pools.filter poolEmits).flatMap (fun p => poolKeys p.Name) := by
  induction pools generalizing m with
  | nil => simp
  | cons p rest ih =>
    rw [List.map_cons, List.nodup_cons] at hn
    have hk := keys_agentPoolOutputs m p (hm p (List.mem_cons_self _ _))
    rw [List.foldl_cons, ih _ hn.2, hk]
    · cases hq : poolEmits p <;> simp [List.filter_cons, hq]
    · intro q hq k hkq
      rw [hk, List.mem_append, not_or]
      refine ⟨hm q (List.mem_cons_of_mem _ hq) k hkq, ?_⟩
      have hne : q.Name ≠ p.Name := by
        intro e
        apply hn.1
        rw [← e]
        exact List.mem_map_of_mem (fun p => p.Name) hq
      cases poolEmits p
      · simp
      · exact poolKeys_disjoint q.Name p.Name hne k hkq

theorem keys_addonOutputs (cs : ContainerService) (m : Outputs)
    (h1 : "applicationGatewayName" ∉ m.keys) (h2 : "appGwIdentityResourceId" ∉ m.keys)
    (h3 : "appGwIdentityClientId" ∉ m.keys) :
    (addonOutputs cs m).keys = m.keys ++
      (if IsAddonEnabled cs AppGwIngressAddonName then
        ["applicationGatewayName", "appGwIdentityResourceId", "appGwIdentityClientId"]
      else []) := by
  unfold addonOutputs
  cases IsAddonEnabled cs AppGwIngressAddonName
  · simp
  · simp only [if_true]
    rw [keys_set_of_not_mem, keys_set_of_not_mem, keys_set_of_not_mem _ _ _ h1]
    · simp
    · rw [keys_set_of_not_mem _ _ _ h1]
      simp only [List.mem_append, List.mem_singleton, not_or]
      exact ⟨h2, by decide⟩
    · rw [keys_set_of_not_mem, keys_set_of_not_mem _ _ _ h1]
      · simp only [List.mem_append, List.mem_singleton, not_or]
        exact ⟨⟨h3, by decide⟩, by decide⟩
      · rw [keys_set_of_not_mem _ _ _ h1]
        simp only [List.mem_append, List.mem_singleton, not_or]
        exact ⟨h2, by decide⟩

theorem keys_roleAssignmentOutputs (cs : ContainerService) (m : Outputs)
    (h : "roleAssignmentNames" ∉ m.keys) :
    (roleAssignmentOutputs cs m).keys = m.keys ++
      (if SystemAssignedIDEnabled cs then ["roleAssignmentNames"] else []) := by
  unfold roleAssignmentOutputs
  cases SystemAssignedIDEnabled cs
  · simp
  · simp only [if_true]
    rw [keys_set_of_not_mem _ _ _ h]

theorem keys_master_stage (cs : ContainerService) :
    (if !IsHostedMasterProfile cs then mergeOutputs baseOutputs (getMasterOutputs cs)
      else baseOutputs).keys =
      baseOutputs.keys ++
        (if !IsHostedMasterProfile cs then (getMasterOutputs cs).keys else []) := by
  cases IsHostedMasterProfile cs
  · simp [mergeOutputs_getMasterOutputs, Outputs.keys]
  · simp

theorem master_stage_subset_fixedNames (cs : ContainerService) :
    ∀ k ∈ baseOutputs.keys ++
        (if !IsHostedMasterProfile cs then (getMasterOutputs cs).keys else []),
      k ∈ fixedNames.take 11 := by
  rw [keys_getMasterOutputs]
  cases IsHostedMasterProfile cs <;> cases HasVMASAgentPool cs <;> decide

theorem not_mem_pool_names (pools : List AgentPoolProfile) (k : String) (hk : FixedName k) :
    k ∉ (pools.filter poolEmits).flatMap (fun p => poolKeys p.Name) := by
  rw [List.mem_flatMap]
  rintro ⟨p, -, hp⟩
  exact not_mem_poolKeys_of_fixed k p.Name hk hp

/-- With pairwise distinct pool names every write of `GetKubernetesOutputs` adds a new
entry, so the names of the result are the written names, in the order of the writes. -/
theorem keys_GetKubernetesOutputs_of_nodup (cs : ContainerService)
    (hn : (cs.AgentPoolProfiles.map (fun p => p.Name)).Nodup) :
    (GetKubernetesOutputs cs).keys = writtenNames cs := by
  have hsub := master_stage_subset_fixedNames cs
  have hpool : (cs.AgentPoolProfiles.foldl agentPoolOutputs
      (if !IsHostedMasterProfile cs then mergeOutputs baseOutputs (getMasterOutputs cs)
        else baseOutputs)).keys =
      baseOutputs.keys ++
        (if !IsHostedMasterProfile cs then (getMasterOutputs cs).keys else []) ++
        (cs.AgentPoolProfiles.filter poolEmits).flatMap (fun p => poolKeys p.Name) := by
    rw [keys_foldl_agentPoolOutputs _ _ hn, keys_master_stage]
    intro p _ k hk hmem
    rw [keys_master_stage] at hmem
    have hfix : FixedName k :=
      fixedNames_fixed k (List.mem_of_mem_take (hsub k hmem))
    exact not_mem_poolKeys_of_fixed k p.Name hfix hk
  have hnot : ∀ k, FixedName k → k ∉ fixedNames.take 11 →
      k ∉ (cs.AgentPoolProfiles.foldl agentPoolOutputs
        (if !IsHostedMasterProfile cs then mergeOutputs baseOutputs (getMasterOutputs cs)
          else baseOutputs)).keys := by
    intro k hf hk
    rw [hpool, List.mem_append, not_or]
    exact ⟨fun h => hk (hsub k h), not_mem_pool_names _ k hf⟩
  have haddon := keys_addonOutputs cs _
    (hnot "applicationGatewayName" (by decide) (by decide))
    (hnot "appGwIdentityResourceId" (by decide) (by decide))
    (hnot "appGwIdentityClientId" (by decide) (by decide))
  unfold GetKubernetesOutputs writtenNames
  simp only []
  rw [keys_roleAssignmentOutputs, haddon, hpool]
  rw [haddon, List.mem_append, not_or]
  refine ⟨hnot "roleAssignmentNames" (by decide) (by decide), ?_⟩
  cases IsAddonEnabled cs AppGwIngressAddonName <;> decide

theorem keys_nodup_foldl_set (l : Outputs) (m : Outputs) (h : m.keys.Nodup) :
    (l.foldl (fun o kv => o.set kv.1 kv.2) m).keys.Nodup := by
  induction l generalizing m with
  | nil => exact h
  | cons kv rest ih => exact ih _ (keys_nodup_set m kv.1 kv.2 h)

theorem keys_nodup_agentPoolOutputs (m : Outputs) (p : AgentPoolProfile) (h : m.keys.Nodup) :
    (agentPoolOutputs m p).keys.Nodup := by
  unfold agentPoolOutputs
  split
  · exact keys_nodup_set _ _ _ (keys_nodup_set _ _ _ (keys_nodup_set _ _ _ h))
  · exact h

theorem keys_nodup_foldl_agentPoolOutputs (pools : List AgentPoolProfile) (m : Outputs)
    (h : m.keys.Nodup) : (pools.foldl agentPoolOutputs m).keys.Nodup := by
  induction pools generalizing m with
  | nil => exact h
  | cons p rest ih => exact ih _ (keys_nodup_agentPoolOutputs m p h)

/-- The result of `GetKubernetesOutputs` is a map: its names are pairwise distinct, for
every configuration. -/
theorem keys_nodup_GetKubernetesOutputs (cs : ContainerService) :
    (GetKubernetesOutputs cs).keys.Nodup := by
  unfold GetKubernetesOutputs roleAssignmentOutputs addonOutputs mergeOutputs
  simp only []
  have hb : baseOutputs.keys.Nodup := by decide
  have h1 : (if !IsHostedMasterProfile cs then
      (getMasterOutputs cs).foldl (fun o kv => o.set kv.1 kv.2) baseOutputs
      else baseOutputs).keys.Nodup := by
    split
    · exact keys_nodup_foldl_set _ _ hb
    · exact hb
  have h2 := keys_nodup_foldl_agentPoolOutputs cs.AgentPoolProfiles _ h1
  split <;> split <;>
    first
    | exact h2
    | exact keys_nodup_set _ _ _ h2
    | exact keys_nodup_set _ _ _ (keys_nodup_set _ _ _ (keys_nodup_set _ _ _ h2))
    | exact keys_nodup_set _ _ _
        (keys_nodup_set _ _ _ (keys_nodup_set _ _ _ (keys_nodup_set _ _ _ h2)))

theorem length_flatMap_poolKeys (l : List AgentPoolProfile) :
    (l.flatMap (fun p => poolKeys p.Name)).length = 3 * l.length := by
  induction l with
  | nil => rfl
  | cons p rest ih =>
    rw [List.flatMap_cons, List.length_append, ih, List.length_cons]
    simp only [poolKeys, List.length_cons, List.length_nil]
    omega

theorem length_writtenNames (cs : ContainerService) :
    (writtenNames cs).length =
      8 + (if IsHostedMasterProfile cs then 0 else 1)
        + (if (!IsHostedMasterProfile cs && HasVMASAgentPool cs) then 2 else 0)
        + 3 * cs.AgentPoolProfiles.countP
            (fun p => p.usesAvailabilitySet && p.usesStorageAccount)
        + (if IsAddonEnabled cs AppGwIngressAddonName then 3 else 0)
        + (if SystemAssignedIDEnabled cs then 1 else 0) := by
  have hc : cs.AgentPoolProfiles.countP
      (fun p => p.usesAvailabilitySet && p.usesStorageAccount) =
      (cs.AgentPoolProfiles.filter poolEmits).length := by
    rw [List.countP_eq_length_filter]
    rfl
  unfold writtenNames
  rw [hc, keys_getMasterOutputs]
  simp only [List.length_append, length_flatMap_poolKeys]
  have hb : baseOutputs.keys.length = 8 := rfl
  rw [hb]
  cases IsHostedMasterProfile cs <;> cases HasVMASAgentPool cs <;>
    cases IsAddonEnabled cs AppGwIngressAddonName <;> cases SystemAssignedIDEnabled cs <;>
    simp

/-- C6: with pairwise distinct agent-pool names no output name is written twice: the names
written by the base, master, per-pool, add-on and role-assignment steps are pairwise
distinct, they are the names of the result, and the result has exactly
8 + (1 if not hosted) + (2 if not hosted and the storage-account outputs are emitted)
+ 3 * (pools on availability set and storage account) + (3 if the ingress add-on is
enabled) + (1 if identity is system-assigned) entries. -/
theorem output_names_written_once (cs : ContainerService)
    (hn : (cs.AgentPoolProfiles.map (fun p => p.Name)).Nodup) :
    (writtenNames cs).Nodup ∧
    (GetKubernetesOutputs cs).keys.Perm (writtenNames cs) ∧
    (GetKubernetesOutputs cs).length =
      8 + (if IsHostedMasterProfile cs then 0 else 1)
        + (if (!IsHostedMasterProfile cs && HasVMASAgentPool cs) then 2 else 0)
        + 3 * cs.AgentPoolProfiles.countP
            (fun p => p.usesAvailabilitySet && p.usesStorageAccount)
        + (if IsAddonEnabled cs AppGwIngressAddonName then 3 else 0)
        + (if SystemAssignedIDEnabled cs then 1 else 0) := by
  have hk := keys_GetKubernetesOutputs_of_nodup cs hn
  refine ⟨?_, ?_, ?_⟩
  · rw [← hk]
    exact keys_nodup_GetKubernetesOutputs cs
  · rw [hk]
  · rw [← length_writtenNames, ← hk, Outputs.keys, List.length_map]

/-- Witness of C6 at the spec's example configuration: 15 entries. -/
theorem output_names_written_once_witness :
    (pool1Config.AgentPoolProfiles.map (fun p => p.Name)).Nodup ∧
    (writtenNames pool1Config).Nodup ∧
    (GetKubernetesOutputs pool1Config).length = 15 :=
  have h := output_names_written_once pool1Config (by decide)
  ⟨by decide, h.1, h.2.2.trans (by decide)⟩

theorem not_fixed_of_mem_poolKeys (k name : String) (h : k ∈ poolKeys name) :
    ¬ FixedName k := fun hf => not_mem_poolKeys_of_fixed k name hf h

theorem mem_writtenNames_of_poolKey (cs : ContainerService) (k name : String)
    (h : k ∈ poolKeys name) :
    k ∈ writtenNames cs ↔
      k ∈ (cs.AgentPoolProfiles.filter poolEmits).flatMap (fun p => poolKeys p.Name) := by
  have hnf := not_fixed_of_mem_poolKeys k name h
  have h1 : k ∉ baseOutputs.keys ++
      (if !IsHostedMasterProfile cs then (getMasterOutputs cs).keys else []) :=
    fun hm => hnf (fixedNames_fixed k
      (List.mem_of_mem_take (master_stage_subset_fixedNames cs k hm)))
  have h2 : k ∉ (if IsAddonEnabled cs AppGwIngressAddonName then
      ["applicationGatewayName", "appGwIdentityResourceId", "appGwIdentityClientId"]
      else []) := by
    intro hm
    apply hnf
    apply fixedNames_fixed
    revert hm
    cases IsAddonEnabled cs AppGwIngressAddonName
    · simp
    · simp only [if_true, List.mem_cons, List.mem_singleton, List.not_mem_nil, or_false]
      rintro (rfl | rfl | rfl) <;> decide
  have h3 : k ∉ (if SystemAssignedIDEnabled cs then ["roleAssignmentNames"] else []) := by
    intro hm
    apply hnf
    apply fixedNames_fixed
    revert hm
    cases SystemAssignedIDEnabled cs
    · simp
    · simp only [if_true, List.mem_singleton]
      rintro rfl
      decide
  unfold writtenNames
  simp only [List.mem_append]
  constructor
  · rintro (((hm | hm) | hm) | hm)
    · exact absurd (List.mem_append.mpr hm) h1
    · exact hm
    · exact absurd hm h2
    · exact absurd hm h3
  · intro hm
    exact Or.inl (Or.inl (Or.inr hm))

theorem poolKey_written_iff (cs : ContainerService)
    (hn : (cs.AgentPoolProfiles.map (fun p => p.Name)).Nodup)
    (P : AgentPoolProfile) (hP : P ∈ cs.AgentPoolProfiles) (k : String)
    (hk : k ∈ poolKeys P.Name) :
    (GetKubernetesOutputs cs).contains k = true ↔
      (P.usesAvailabilitySet = true ∧ P.usesStorageAccount = true) := by
  rw [contains_iff_mem_keys, keys_GetKubernetesOutputs_of_nodup cs hn,
    mem_writtenNames_of_poolKey cs k P.Name hk, List.mem_flatMap]
  constructor
  · rintro ⟨Q, hQ, hkQ⟩
    rw [List.mem_filter] at hQ
    have hname : Q.Name = P.Name := by
      by_contra hne
      exact poolKeys_disjoint Q.Name P.Name hne k hkQ hk
    have hQP : Q = P := List.inj_on_of_nodup_map hn hQ.1 hP hname
    rw [← hQP]
    simpa [poolEmits, AgentPoolProfile.IsAvailabilitySets,
      AgentPoolProfile.IsStorageAccount] using hQ.2
  · rintro ⟨h1, h2⟩
    refine ⟨P, ?_, hk⟩
    rw [List.mem_filter]
    exact ⟨hP, by simp [poolEmits, AgentPoolProfile.IsAvailabilitySets,
      AgentPoolProfile.IsStorageAccount, h1, h2]⟩

/-- C7: with pairwise distinct agent-pool names, for every pool P of the configuration
each of the three names P.Name ++ "StorageAccountOffset", P.Name ++ "StorageAccountCount"
and P.Name ++ "SubnetName" is a key of the result iff P uses an availability set and a
storage account, whatever the other pools are. -/
theorem pool_triad_present_iff (cs : ContainerService)
    (hn : (cs.AgentPoolProfiles.map (fun p => p.Name)).Nodup)
    (P : AgentPoolProfile) (hP : P ∈ cs.AgentPoolProfiles) :
    ((GetKubernetesOutputs cs).contains (P.Name ++ "StorageAccountOffset") = true ↔
      (P.usesAvailabilitySet = true ∧ P.usesStorageAccount = true)) ∧
    ((GetKubernetesOutputs cs).contains (P.Name ++ "StorageAccountCount") = true ↔
      (P.usesAvailabilitySet = true ∧ P.usesStorageAccount = true)) ∧
    ((GetKubernetesOutputs cs).contains (P.Name ++ "SubnetName") = true ↔
      (P.usesAvailabilitySet = true ∧ P.usesStorageAccount = true)) :=
  ⟨poolKey_written_iff cs hn P hP _ (by simp [poolKeys]),
   poolKey_written_iff cs hn P hP _ (by simp [poolKeys]),
   poolKey_written_iff cs hn P hP _ (by simp [poolKeys])⟩

/-- Witness of C7 in a mixed topology: the triad name of "pool1" (availability set and
storage account) is a key, the triad name of "pool2" (scale set) is not. -/
theorem pool_triad_present_iff_witness :
    (mixedConfig.AgentPoolProfiles.map (fun p => p.Name)).Nodup ∧
    (⟨"pool1", true, true, false⟩ : AgentPoolProfile) ∈ mixedConfig.AgentPoolProfiles ∧
    (⟨"pool2", false, false, true⟩ : AgentPoolProfile) ∈ mixedConfig.AgentPoolProfiles ∧
    (GetKubernetesOutputs mixedConfig).contains ("pool1" ++ "SubnetName") = true ∧
    ¬ ((GetKubernetesOutputs mixedConfig).contains ("pool2" ++ "SubnetName") = true) :=
  ⟨by decide, by decide, by decide,
    (pool_triad_present_iff mixedConfig (by decide) ⟨"pool1", true, true, false⟩
      (by decide)).2.2.mpr ⟨rfl, rfl⟩,
    fun h => absurd ((pool_triad_present_iff mixedConfig (by decide)
      ⟨"pool2", false, false, true⟩ (by decide)).2.2.mp h).1 (by decide)⟩

theorem get?_masterFQDN (cs : ContainerService) :
    (GetKubernetesOutputs cs).get? "masterFQDN" =
      if cs.MasterProfile.isHosted then none
      else some ⟨"string",
        if cs.MasterProfile.isPrivate then ""
        else "[reference(concat('Microsoft.Network/publicIPAddresses/', variables('masterPublicIPAddressName'))).dnsSettings.fqdn]"⟩ := by
  rw [get?_GetKubernetesOutputs_of_fixed cs _ (by decide) (by decide) (by decide)
    (by decide) (by decide), get?_append, getMasterOutputs_eq]
  unfold IsHostedMasterProfile IsPrivateCluster
  cases cs.MasterProfile.isHosted <;> cases cs.MasterProfile.isPrivate <;> rfl

/-- C8: masterFQDN is a key of the result iff the master is not hosted; when present its
type is "string", its value is the empty string iff the cluster is private, and otherwise
it is the public-IP reference expression. -/
theorem masterFQDN_present_iff_not_hosted (cs : ContainerService) :
    ((GetKubernetesOutputs cs).contains "masterFQDN" = true ↔
      cs.MasterProfile.isHosted = false) ∧
    (∀ o, (GetKubernetesOutputs cs).get? "masterFQDN" = some o →
      o.type = "string" ∧
      (o.value = "" ↔ cs.MasterProfile.isPrivate = true) ∧
      (cs.MasterProfile.isPrivate = false → o.value =
        "[reference(concat('Microsoft.Network/publicIPAddresses/', variables('masterPublicIPAddressName'))).dnsSettings.fqdn]")) := by
  unfold Outputs.contains
  rw [get?_masterFQDN]
  cases cs.MasterProfile.isHosted
  · refine ⟨by simp, ?_⟩
    intro o ho
    simp only [Bool.false_eq_true, if_false, Option.some.injEq] at ho
    subst ho
    cases cs.MasterProfile.isPrivate
    · exact ⟨rfl, ⟨fun h => absurd h (by decide), fun h => absurd h (by decide)⟩,
        fun _ => rfl⟩
    · exact ⟨rfl, ⟨fun _ => rfl, fun _ => rfl⟩, fun h => absurd h (by decide)⟩
  · refine ⟨by simp, ?_⟩
    intro o ho
    simp at ho

theorem get?_agentStorageAccount (cs : ContainerService) :
    (GetKubernetesOutputs cs).get? "agentStorageAccountSuffix" =
      (if (!cs.MasterProfile.isHosted && HasVMASAgentPool cs) then
        some ⟨"string", "[variables('storageAccountBaseName')]"⟩ else none) ∧
    (GetKubernetesOutputs cs).get? "agentStorageAccountPrefixes" =
      (if (!cs.MasterProfile.isHosted && HasVMASAgentPool cs) then
        some ⟨"array", "[variables('storageAccountPrefixes')]"⟩ else none) := by
  constructor <;>
  · rw [get?_GetKubernetesOutputs_of_fixed cs _ (by decide) (by decide) (by decide)
      (by decide) (by decide), get?_append, getMasterOutputs_eq]
    unfold IsHostedMasterProfile
    cases cs.MasterProfile.isHosted <;> cases HasVMASAgentPool cs <;> rfl

theorem hasVMASAgentPool_iff (cs : ContainerService) :
    HasVMASAgentPool cs = true ↔
      ∃ p ∈ cs.AgentPoolProfiles, p.usesAvailabilitySet = true ∧ p.usesStorageAccount = true := by
  simp [HasVMASAgentPool]

/-- C9: when the master is not hosted, agentStorageAccountSuffix (type "string") and
agentStorageAccountPrefixes (type "array") are keys of the result, with their fixed
values, iff at least one agent pool of the whole sequence uses an availability set and a
storage account; when the master is hosted neither key is present. -/
theorem agentStorageAccount_outputs_iff (cs : ContainerService) :
    (GetKubernetesOutputs cs).get? "agentStorageAccountSuffix" =
      (if cs.MasterProfile.isHosted = false ∧ ∃ p ∈ cs.AgentPoolProfiles,
          p.usesAvailabilitySet = true ∧ p.usesStorageAccount = true then
        some ⟨"string", "[variables('storageAccountBaseName')]"⟩ else none) ∧
    (GetKubernetesOutputs cs).get? "agentStorageAccountPrefixes" =
      (if cs.MasterProfile.isHosted = false ∧ ∃ p ∈ cs.AgentPoolProfiles,
          p.usesAvailabilitySet = true ∧ p.usesStorageAccount = true then
        some ⟨"array", "[variables('storageAccountPrefixes')]"⟩ else none) ∧
    ((GetKubernetesOutputs cs).contains "agentStorageAccountSuffix" = true ↔
      (cs.MasterProfile.isHosted = false ∧ ∃ p ∈ cs.AgentPoolProfiles,
          p.usesAvailabilitySet = true ∧ p.usesStorageAccount = true)) ∧
    ((GetKubernetesOutputs cs).contains "agentStorageAccountPrefixes" = true ↔
      (cs.MasterProfile.isHosted = false ∧ ∃ p ∈ cs.AgentPoolProfiles,
          p.usesAvailabilitySet = true ∧ p.usesStorageAccount = true)) := by
  have h := get?_agentStorageAccount cs
  have hv := hasVMASAgentPool_iff cs
  unfold Outputs.contains
  rw [h.1, h.2]
  by_cases hx : ∃ p ∈ cs.AgentPoolProfiles,
      p.usesAvailabilitySet = true ∧ p.usesStorageAccount = true
  · have hvt : HasVMASAgentPool cs = true := hv.mpr hx
    cases hh : cs.MasterProfile.isHosted <;> simp [hvt, hx]
  · have hvf : HasVMASAgentPool cs = false := by
      cases hc : HasVMASAgentPool cs
      · rfl
      · exact absurd (hv.mp hc) hx
    cases hh : cs.MasterProfile.isHosted <;> simp [hvf, hx]

/-- C10: with system-assigned identity the scale-set array term is appended to the
roleAssignmentNames value iff at least one agent pool uses a scale set, and then it is
exactly "createArray(" followed by the ", "-join of variables('<name>VMSSSysRoleAssignmentName')
for the pools that use a scale set, in sequence order, followed by ")"; pools without a
scale set contribute nothing. -/
theorem scale_set_term_iff (cs : ContainerService)
    (hid : cs.OrchestratorSettings.identityMode = IdentityMode.systemAssigned) :
    (GetKubernetesOutputs cs).get? "roleAssignmentNames" =
      some ⟨"array", "[concat("
        ++ (("variables('vmasRoleAssignmentNames')"
              ++ (if cs.MasterProfile.usesAvailabilitySet then
                    ", createArray(" ++ Join (masterRoleAssignmentForAgentPools cs) ", " ++ ")"
                  else ""))
            ++ (if ∃ p ∈ cs.AgentPoolProfiles, p.usesScaleSet = true then
                  ", " ++ ("createArray("
                    ++ Join ((cs.AgentPoolProfiles.filter (fun p => p.usesScaleSet)).map
                        (fun p => "variables('" ++ p.Name ++ "VMSSSysRoleAssignmentName')")) ", "
                    ++ ")")
                else ""))
        ++ ")]"⟩ := by
  have hs : SystemAssignedIDEnabled cs = true := by
    simp [SystemAssignedIDEnabled, hid]
  rw [get?_roleAssignmentNames, if_pos hs]
  unfold roleAssignmentOutputValue MasterProfile.IsAvailabilitySet
  simp only []
  have hany : (cs.AgentPoolProfiles.any (fun p => p.usesScaleSet) = true) ↔
      ∃ p ∈ cs.AgentPoolProfiles, p.usesScaleSet = true := by simp
  by_cases hv : (vmssSysRoleAssignmentVariables cs).length > 0
  · have hx := hany.mp ((vmss_length_pos_iff cs).mp hv)
    rw [if_pos hv, if_pos hx, ← vmssSysRoleAssignmentVariables_eq]
    refine congrArg some (congrArg (Output.mk "array") ?_)
    cases cs.MasterProfile.usesAvailabilitySet
    · simp only [Bool.false_eq_true, if_false]
      apply String.ext
      simp only [String.data_append, List.append_assoc]
      rfl
    · simp only [if_true]
      apply String.ext
      simp only [String.data_append, List.append_assoc]
      rfl
  · have hx : ¬ ∃ p ∈ cs.AgentPoolProfiles, p.usesScaleSet = true :=
      fun h => hv ((vmss_length_pos_iff cs).mpr (hany.mpr h))
    rw [if_neg hv, if_neg hx, String.append_empty]
    cases cs.MasterProfile.usesAvailabilitySet
    · simp only [Bool.false_eq_true, if_false, String.append_empty]
    · simp only [if_true]

/-- Witness of C10 in a mixed topology: "pool2" and "pool3" use scale sets, "pool1" does
not and contributes nothing to the scale-set term. -/
theorem scale_set_term_iff_witness :
    mixedConfig.OrchestratorSettings.identityMode = IdentityMode.systemAssigned ∧
    (GetKubernetesOutputs mixedConfig).get? "roleAssignmentNames" =
      some ⟨"array", "[concat("
        ++ (("variables('vmasRoleAssignmentNames')"
              ++ (", createArray(" ++ Join (masterRoleAssignmentForAgentPools mixedConfig) ", "
                ++ ")"))
            ++ (", " ++ "createArray(variables('pool2VMSSSysRoleAssignmentName'), variables('pool3VMSSSysRoleAssignmentName'))"))
        ++ ")]"⟩ :=
  ⟨rfl, (scale_set_term_iff mixedConfig rfl).trans (by rfl)⟩

/-! ## Further properties of the role-assignment and add-on blocks -/

theorem vmss_nil_of_no_scale_set (cs : ContainerService)
    (hv : ∀ p ∈ cs.AgentPoolProfiles, p.usesScaleSet = false) :
    vmssSysRoleAssignmentVariables cs = [] := by
  rw [vmssSysRoleAssignmentVariables_eq, List.map_eq_nil_iff, List.filter_eq_nil_iff]
  intro p hp
  simp [hv p hp]

/-- C11: with system-assigned identity, a master that does not use an availability set
and no pool that uses a scale set, the roleAssignmentNames value is exactly
"[concat(variables('vmasRoleAssignmentNames'))]", whatever the number and names of the
agent pools and the master count are. -/
theorem roleAssignmentNames_base_term_only (cs : ContainerService)
    (hid : cs.OrchestratorSettings.identityMode = IdentityMode.systemAssigned)
    (hm : cs.MasterProfile.usesAvailabilitySet = false)
    (hv : ∀ p ∈ cs.AgentPoolProfiles, p.usesScaleSet = false) :
    (GetKubernetesOutputs cs).get? "roleAssignmentNames" =
      some ⟨"array", "[concat(variables('vmasRoleAssignmentNames'))]"⟩ := by
  have hs : SystemAssignedIDEnabled cs = true := by
    simp [SystemAssignedIDEnabled, hid]
  rw [get?_roleAssignmentNames, if_pos hs]
  unfold roleAssignmentOutputValue MasterProfile.IsAvailabilitySet
  simp only [hm, vmss_nil_of_no_scale_set cs hv, List.length_nil, gt_iff_lt, Nat.lt_irrefl,
    Bool.false_eq_true, if_false]
  rfl

/-- Witness of C11: two pools without scale set, master count 3 without availability
set. -/
theorem roleAssignmentNames_base_term_only_witness :
    plainConfig.OrchestratorSettings.identityMode = IdentityMode.systemAssigned ∧
    plainConfig.MasterProfile.usesAvailabilitySet = false ∧
    (∀ p ∈ plainConfig.AgentPoolProfiles, p.usesScaleSet = false) ∧
    (GetKubernetesOutputs plainConfig).get? "roleAssignmentNames" =
      some ⟨"array", "[concat(variables('vmasRoleAssignmentNames'))]"⟩ :=
  ⟨rfl, rfl, by decide, roleAssignmentNames_base_term_only plainConfig rfl rfl (by decide)⟩

theorem get?_pool_stage_of_fixed (cs : ContainerService) (k : String) (hf : FixedName k) :
    (cs.AgentPoolProfiles.foldl agentPoolOutputs
      (if !IsHostedMasterProfile cs then mergeOutputs baseOutputs (getMasterOutputs cs)
        else baseOutputs)).get? k =
      if IsHostedMasterProfile cs then baseOutputs.get? k
      else Outputs.get? (baseOutputs ++ getMasterOutputs cs) k := by
  rw [get?_foldl_agentPoolOutputs _ _ _ (fun p _ _ => not_mem_poolKeys_of_fixed k p.Name hf)]
  cases IsHostedMasterProfile cs
  · simp [mergeOutputs_getMasterOutputs]
  · simp

theorem get?_addon_names (cs : ContainerService) :
    (GetKubernetesOutputs cs).get? "applicationGatewayName" =
      (if IsAddonEnabled cs AppGwIngressAddonName then
        some ⟨"string", "[variables('appGwName')]"⟩ else none) ∧
    (GetKubernetesOutputs cs).get? "appGwIdentityResourceId" =
      (if IsAddonEnabled cs AppGwIngressAddonName then
        some ⟨"string", "[variables('appGwICIdentityId')]"⟩ else none) ∧
    (GetKubernetesOutputs cs).get? "appGwIdentityClientId" =
      (if IsAddonEnabled cs AppGwIngressAddonName then
        some ⟨"string", "[reference(variables('appGwICIdentityId'), variables('apiVersionManagedIdentity')).clientId]"⟩
      else none) := by
  unfold GetKubernetesOutputs
  simp only []
  rw [get?_roleAssignmentOutputs_of_ne _ _ _ (by decide),
    get?_roleAssignmentOutputs_of_ne _ _ _ (by decide),
    get?_roleAssignmentOutputs_of_ne _ _ _ (by decide)]
  unfold addonOutputs
  cases IsAddonEnabled cs AppGwIngressAddonName
  · simp only [Bool.false_eq_true, if_false]
    rw [get?_pool_stage_of_fixed cs _ (by decide), get?_pool_stage_of_fixed cs _ (by decide),
      get?_pool_stage_of_fixed cs _ (by decide), get?_append, get?_append, get?_append,
      getMasterOutputs_eq]
    cases IsHostedMasterProfile cs <;> cases HasVMASAgentPool cs <;> exact ⟨rfl, rfl, rfl⟩
  · simp only [if_true]
    refine ⟨?_, ?_, ?_⟩
    · rw [get?_set_of_ne _ _ _ _ (by decide), get?_set_of_ne _ _ _ _ (by decide),
        get?_set_self]
    · rw [get?_set_of_ne _ _ _ _ (by decide), get?_set_self]
    · rw [get?_set_self]

/-- C12: applicationGatewayName, appGwIdentityResourceId and appGwIdentityClientId are
keys of the result iff the application-gateway ingress add-on is enabled, and when present
each has type "string" and its fixed value. -/
theorem appgw_outputs_iff_addon_enabled (cs : ContainerService) :
    ((GetKubernetesOutputs cs).contains "applicationGatewayName" = true ↔
      IsAddonEnabled cs AppGwIngressAddonName = true) ∧
    ((GetKubernetesOutputs cs).contains "appGwIdentityResourceId" = true ↔
      IsAddonEnabled cs AppGwIngressAddonName = true) ∧
    ((GetKubernetesOutputs cs).contains "appGwIdentityClientId" = true ↔
      IsAddonEnabled cs AppGwIngressAddonName = true) ∧
    (GetKubernetesOutputs cs).get? "applicationGatewayName" =
      (if IsAddonEnabled cs AppGwIngressAddonName then
        some ⟨"string", "[variables('appGwName')]"⟩ else none) ∧
    (GetKubernetesOutputs cs).get? "appGwIdentityResourceId" =
      (if IsAddonEnabled cs AppGwIngressAddonName then
        some ⟨"string", "[variables('appGwICIdentityId')]"⟩ else none) ∧
    (GetKubernetesOutputs cs).get? "appGwIdentityClientId" =
      (if IsAddonEnabled cs AppGwIngressAddonName then
        some ⟨"string", "[reference(variables('appGwICIdentityId'), variables('apiVersionManagedIdentity')).clientId]"⟩
      else none) := by
  have h := get?_addon_names cs
  unfold Outputs.contains
  rw [h.1, h.2.1, h.2.2]
  cases IsAddonEnabled cs AppGwIngressAddonName <;> simp

/-- C13 (the code at a negative master count): the call does not abort, it returns an
output set of ten entries. -/
theorem negativeCount_returns_outputs :
    GetKubernetesOutputs negativeCountConfig =
      baseOutputs ++
        [("masterFQDN", ⟨"string", ""⟩),
         ("agentStorageAccountSuffix", ⟨"string", "[variables('storageAccountBaseName')]"⟩),
         ("agentStorageAccountPrefixes", ⟨"array", "[variables('storageAccountPrefixes')]"⟩),
         ("pool1StorageAccountOffset", ⟨"int", "[variables('pool1StorageAccountOffset')]"⟩),
         ("pool1StorageAccountCount", ⟨"int", "[variables('pool1StorageAccountsCount')]"⟩),
         ("pool1SubnetName", ⟨"string", "[variables('pool1SubnetName')]"⟩),
         ("roleAssignmentNames",
           ⟨"array", "[concat(variables('vmasRoleAssignmentNames'), createArray())]"⟩)] := by
  decide

/-- C13 (amended): with a negative master count the master index loop runs zero times, no
master role-assignment expression is generated, and the call returns the same output set
as for master count 0. -/
theorem negative_count_as_zero (cs : ContainerService)
    (hc : cs.MasterProfile.Count < 0) :
    masterRoleAssignmentForAgentPools cs = [] ∧
    GetKubernetesOutputs cs =
      GetKubernetesOutputs
        { cs with MasterProfile := { cs.MasterProfile with Count := 0 } } := by
  have hn : cs.MasterProfile.Count.toNat = 0 := by
    rw [Int.toNat_eq_zero]
    exact Int.le_of_lt hc
  have hm : ∀ cs0 : ContainerService, cs0.MasterProfile.Count.toNat = 0 →
      masterRoleAssignmentForAgentPools cs0 = [] := by
    intro cs0 h0
    rw [masterRoleAssignmentForAgentPools_eq, h0]
    simp
  have hrole : roleAssignmentOutputValue cs = roleAssignmentOutputValue
      { cs with MasterProfile := { cs.MasterProfile with Count := 0 } } := by
    unfold roleAssignmentOutputValue
    rw [hm cs hn, hm { cs with MasterProfile := { cs.MasterProfile with Count := 0 } } rfl]
    rfl
  refine ⟨hm cs hn, ?_⟩
  unfold GetKubernetesOutputs roleAssignmentOutputs
  rw [hrole]
  rfl

/-- Witness of the amended C13 at master count -1. -/
theorem negative_count_as_zero_witness :
    negativeCountConfig.MasterProfile.Count < 0 ∧
    masterRoleAssignmentForAgentPools negativeCountConfig = [] ∧
    GetKubernetesOutputs negativeCountConfig =
      GetKubernetesOutputs
        { negativeCountConfig with
          MasterProfile := { negativeCountConfig.MasterProfile with Count := 0 } } :=
  ⟨by decide, negative_count_as_zero negativeCountConfig (by decide)⟩

/-- C17: when the identity mode is not system-assigned, the result does not depend on the
master availability-set flag or on the master count: two configurations that differ only
in those two fields produce equal results. -/
theorem master_as_and_count_irrelevant_without_system_identity (cs : ContainerService)
    (usesAvailabilitySet : Bool) (count : Int)
    (hid : cs.OrchestratorSettings.identityMode ≠ IdentityMode.systemAssigned) :
    GetKubernetesOutputs
        { cs with MasterProfile :=
            { cs.MasterProfile with
              usesAvailabilitySet := usesAvailabilitySet, Count := count } } =
      GetKubernetesOutputs cs := by
  have hs : SystemAssignedIDEnabled cs = false := by
    simp [SystemAssignedIDEnabled, hid]
  have hs2 : SystemAssignedIDEnabled
      { cs with MasterProfile :=
          { cs.MasterProfile with
            usesAvailabilitySet := usesAvailabilitySet, Count := count } } = false := hs
  unfold GetKubernetesOutputs roleAssignmentOutputs
  rw [hs, hs2]
  rfl

/-- Witness of C17: count 3 with availability set against count 7 without. -/
theorem master_as_and_count_irrelevant_without_system_identity_witness :
    userAssignedConfig.OrchestratorSettings.identityMode ≠ IdentityMode.systemAssigned ∧
    GetKubernetesOutputs
        { userAssignedConfig with MasterProfile :=
            { userAssignedConfig.MasterProfile with
              usesAvailabilitySet := false, Count := 7 } } =
      GetKubernetesOutputs userAssignedConfig :=
  ⟨by decide,
    master_as_and_count_irrelevant_without_system_identity userAssignedConfig false 7
      (by decide)⟩

/-! ## Per-pool outputs: values and independence of the pool order -/

theorem get?_agentPoolOutputs_eq (m : Outputs) (p : AgentPoolProfile) (k : String) :
    (agentPoolOutputs m p).get? k =
      if poolEmits p then
        (match poolLookupName p.Name k with
          | some v => some v
          | none => m.get? k)
      else m.get? k := by
  unfold agentPoolOutputs poolEmits poolLookupName
  by_cases hq : (p.IsAvailabilitySets && p.IsStorageAccount) = true
  · rw [if_pos hq, if_pos hq]
    simp only []
    rw [get?_set, get?_set, get?_set]
    by_cases h3 : p.Name ++ "SubnetName" = k
    · simp [h3]
    · by_cases h2 : p.Name ++ "StorageAccountCount" = k
      · simp [h3, h2]
      · by_cases h1 : p.Name ++ "StorageAccountOffset" = k
        · simp [h3, h2, h1]
        · simp [h3, h2, h1]
  · rw [if_neg hq, if_neg hq]

theorem mem_poolKeys_of_poolLookupName (n k : String) (v : Output)
    (h : poolLookupName n k = some v) : k ∈ poolKeys n := by
  unfold poolLookupName at h
  simp only [poolKeys, List.mem_cons, List.mem_singleton, List.not_mem_nil, or_false]
  by_cases h3 : n ++ "SubnetName" = k
  · exact Or.inr (Or.inr h3.symm)
  · by_cases h2 : n ++ "StorageAccountCount" = k
    · exact Or.inr (Or.inl h2.symm)
    · by_cases h1 : n ++ "StorageAccountOffset" = k
      · exact Or.inl h1.symm
      · simp [h3, h2, h1] at h

theorem poolLookupName_consistent (n n' k : String) (v w : Output)
    (h : poolLookupName n k = some v) (h' : poolLookupName n' k = some w) : v = w := by
  have hk := mem_poolKeys_of_poolLookupName n k v h
  have hk' := mem_poolKeys_of_poolLookupName n' k w h'
  have hn : n = n' := by
    by_contra hne
    exact poolKeys_disjoint n n' hne k hk hk'
  subst hn
  rw [h] at h'
  exact Option.some.inj h'

theorem get?_agentPoolOutputs_congr (m m' : Outputs) (p : AgentPoolProfile)
    (h : ∀ k, m.get? k = m'.get? k) :
    ∀ k, (agentPoolOutputs m p).get? k = (agentPoolOutputs m' p).get? k := by
  intro k
  rw [get?_agentPoolOutputs_eq, get?_agentPoolOutputs_eq, h k]

theorem get?_foldl_agentPoolOutputs_congr (pools : List AgentPoolProfile) (m m' : Outputs)
    (h : ∀ k, m.get? k = m'.get? k) :
    ∀ k, (pools.foldl agentPoolOutputs m).get? k = (pools.foldl agentPoolOutputs m').get? k := by
  induction pools generalizing m m' with
  | nil => exact h
  | cons p rest ih => exact ih _ _ (get?_agentPoolOutputs_congr m m' p h)

theorem get?_agentPoolOutputs_swap (m : Outputs) (p q : AgentPoolProfile) (k : String) :
    (agentPoolOutputs (agentPoolOutputs m p) q).get? k =
      (agentPoolOutputs (agentPoolOutputs m q) p).get? k := by
  simp only [get?_agentPoolOutputs_eq]
  cases poolEmits p <;> cases poolEmits q <;> simp only [Bool.false_eq_true, if_false, if_true]
  cases hp : poolLookupName p.Name k with
  | none => rfl
  | some v =>
    cases hq : poolLookupName q.Name k with
    | none => rfl
    | some w => rw [poolLookupName_consistent p.Name q.Name k v w hp hq]

/-- The lookups in the result of the agent-pool loop do not depend on the order of the
pools. -/
theorem get?_foldl_agentPoolOutputs_perm {l l' : List AgentPoolProfile} (h : l.Perm l') :
    ∀ (m m' : Outputs), (∀ k, m.get? k = m'.get? k) →
      ∀ k, (l.foldl agentPoolOutputs m).get? k = (l'.foldl agentPoolOutputs m').get? k := by
  induction h with
  | nil => intro m m' hm; exact hm
  | cons x _ ih =>
    intro m m' hm
    exact ih _ _ (get?_agentPoolOutputs_congr m m' x hm)
  | swap x y l =>
    intro m m' hm
    simp only [List.foldl_cons]
    apply get?_foldl_agentPoolOutputs_congr
    intro k
    rw [get?_agentPoolOutputs_swap m y x k]
    exact get?_agentPoolOutputs_congr _ _ y (get?_agentPoolOutputs_congr m m' x hm) k
  | trans _ _ ih1 ih2 =>
    intro m m' hm k
    exact (ih1 m m' hm k).trans (ih2 m' m' (fun _ => rfl) k)

theorem get?_foldl_agentPoolOutputs_of_emits (pools : List AgentPoolProfile) (m : Outputs)
    (n k : String) (v : Output) (hv : poolLookupName n k = some v)
    (h : ∃ q ∈ pools, poolEmits q = true ∧ q.Name = n) :
    (pools.foldl agentPoolOutputs m).get? k = some v := by
  induction pools generalizing m with
  | nil => simp at h
  | cons p rest ih =>
    rw [List.foldl_cons]
    by_cases hr : ∃ q ∈ rest, poolEmits q = true ∧ q.Name = n
    · exact ih _ hr
    · have hp : poolEmits p = true ∧ p.Name = n := by
        obtain ⟨q, hq, he⟩ := h
        rcases List.mem_cons.mp hq with rfl | hq'
        · exact he
        · exact absurd ⟨q, hq', he⟩ hr
      have hk := mem_poolKeys_of_poolLookupName n k v hv
      rw [get?_foldl_agentPoolOutputs rest _ k, get?_agentPoolOutputs_eq, hp.1, hp.2, hv]
      · rfl
      · intro r hrm hre hkr
        have hne : n ≠ r.Name := fun e => hr ⟨r, hrm, hre, e.symm⟩
        exact poolKeys_disjoint n r.Name hne k hk hkr

theorem poolKey_ne_fixedName (n k f : String) (hk : k ∈ poolKeys n) (hf : f ∈ fixedNames) :
    k ≠ f := by
  intro e
  exact not_fixed_of_mem_poolKeys k n hk (e ▸ fixedNames_fixed f hf)

theorem get?_GetKubernetesOutputs_of_emits (cs : ContainerService) (P : AgentPoolProfile)
    (hP : P ∈ cs.AgentPoolProfiles) (he : poolEmits P = true) (k : String) (v : Output)
    (hv : poolLookupName P.Name k = some v) :
    (GetKubernetesOutputs cs).get? k = some v := by
  have hk := mem_poolKeys_of_poolLookupName P.Name k v hv
  unfold GetKubernetesOutputs
  simp only []
  rw [get?_roleAssignmentOutputs_of_ne _ _ _ (poolKey_ne_fixedName P.Name k _ hk (by decide)),
    get?_addonOutputs_of_ne _ _ _ (poolKey_ne_fixedName P.Name k _ hk (by decide))
      (poolKey_ne_fixedName P.Name k _ hk (by decide))
      (poolKey_ne_fixedName P.Name k _ hk (by decide))]
  exact get?_foldl_agentPoolOutputs_of_emits _ _ P.Name k v hv ⟨P, hP, he, rfl⟩

/-- C14: for every pool P of the configuration that uses an availability set and a storage
account, the result maps P.Name ++ "StorageAccountOffset" to type "int" with value
[variables('<P.Name>StorageAccountOffset')], P.Name ++ "StorageAccountCount" to type "int"
with value [variables('<P.Name>StorageAccountsCount')] (plural "Accounts" in the variable)
and P.Name ++ "SubnetName" to type "string" with value [variables('<P.Name>SubnetName')].
Pools of equal name would write equal descriptors, so distinctness of the pool names is
not needed. -/
theorem pool_triad_values (cs : ContainerService) (P : AgentPoolProfile)
    (hP : P ∈ cs.AgentPoolProfiles)
    (hAS : P.usesAvailabilitySet = true) (hSA : P.usesStorageAccount = true) :
    (GetKubernetesOutputs cs).get? (P.Name ++ "StorageAccountOffset") =
      some ⟨"int", "[variables('" ++ P.Name ++ "StorageAccountOffset')]"⟩ ∧
    (GetKubernetesOutputs cs).get? (P.Name ++ "StorageAccountCount") =
      some ⟨"int", "[variables('" ++ P.Name ++ "StorageAccountsCount')]"⟩ ∧
    (GetKubernetesOutputs cs).get? (P.Name ++ "SubnetName") =
      some ⟨"string", "[variables('" ++ P.Name ++ "SubnetName')]"⟩ := by
  have he : poolEmits P = true := by
    simp [poolEmits, AgentPoolProfile.IsAvailabilitySets, AgentPoolProfile.IsStorageAccount,
      hAS, hSA]
  have hnd := poolKeys_nodup P.Name
  simp only [poolKeys, List.nodup_cons, List.mem_cons, List.mem_singleton, List.not_mem_nil,
    or_false, not_or] at hnd
  refine ⟨?_, ?_, ?_⟩
  · apply get?_GetKubernetesOutputs_of_emits cs P hP he
    unfold poolLookupName
    rw [if_neg (fun e => hnd.1.2 e.symm), if_neg (fun e => hnd.1.1 e.symm), if_pos rfl]
  · apply get?_GetKubernetesOutputs_of_emits cs P hP he
    unfold poolLookupName
    rw [if_neg (fun e => hnd.2.1 e.symm), if_pos rfl]
  · apply get?_GetKubernetesOutputs_of_emits cs P hP he
    unfold poolLookupName
    rw [if_pos rfl]

/-- Witness of C14 for "pool1" in a mixed topology. -/
theorem pool_triad_values_witness :
    (⟨"pool1", true, true, false⟩ : AgentPoolProfile) ∈ mixedConfig.AgentPoolProfiles ∧
    (GetKubernetesOutputs mixedConfig).get? "pool1StorageAccountOffset" =
      some ⟨"int", "[variables('pool1StorageAccountOffset')]"⟩ ∧
    (GetKubernetesOutputs mixedConfig).get? "pool1StorageAccountCount" =
      some ⟨"int", "[variables('pool1StorageAccountsCount')]"⟩ ∧
    (GetKubernetesOutputs mixedConfig).get? "pool1SubnetName" =
      some ⟨"string", "[variables('pool1SubnetName')]"⟩ :=
  ⟨by decide,
    pool_triad_values mixedConfig ⟨"pool1", true, true, false⟩ (by decide) rfl rfl⟩

theorem hasVMASAgentPool_withAgentPools (cs : ContainerService)
    (pools : List AgentPoolProfile) (hperm : pools.Perm cs.AgentPoolProfiles) :
    HasVMASAgentPool (withAgentPools cs pools) = HasVMASAgentPool cs := by
  have h1 := hasVMASAgentPool_iff (withAgentPools cs pools)
  have h2 := hasVMASAgentPool_iff cs
  have h3 : (∃ p ∈ (withAgentPools cs pools).AgentPoolProfiles,
        p.usesAvailabilitySet = true ∧ p.usesStorageAccount = true) ↔
      (∃ p ∈ cs.AgentPoolProfiles,
        p.usesAvailabilitySet = true ∧ p.usesStorageAccount = true) := by
    constructor
    · rintro ⟨p, hp, h⟩
      exact ⟨p, hperm.mem_iff.mp hp, h⟩
    · rintro ⟨p, hp, h⟩
      exact ⟨p, hperm.mem_iff.mpr hp, h⟩
  cases ha : HasVMASAgentPool (withAgentPools cs pools) <;>
    cases hb : HasVMASAgentPool cs
  · rfl
  · exact absurd (h1.mpr (h3.mpr (h2.mp hb))) (by simp [ha])
  · exact absurd (h2.mpr (h3.mp (h1.mp ha))) (by simp [hb])
  · rfl

theorem getMasterOutputs_withAgentPools (cs : ContainerService)
    (pools : List AgentPoolProfile) (hperm : pools.Perm cs.AgentPoolProfiles) :
    getMasterOutputs (withAgentPools cs pools) = getMasterOutputs cs := by
  rw [getMasterOutputs_eq, getMasterOutputs_eq, hasVMASAgentPool_withAgentPools cs pools hperm]
  rfl

theorem get?_addonOutputs_congr (cs cs' : ContainerService) (m m' : Outputs)
    (ha : IsAddonEnabled cs' AppGwIngressAddonName = IsAddonEnabled cs AppGwIngressAddonName)
    (h : ∀ k, m.get? k = m'.get? k) :
    ∀ k, (addonOutputs cs' m).get? k = (addonOutputs cs m').get? k := by
  intro k
  unfold addonOutputs
  rw [ha]
  cases IsAddonEnabled cs AppGwIngressAddonName
  · simp only [Bool.false_eq_true, if_false]
    exact h k
  · simp only [if_true]
    rw [get?_set, get?_set, get?_set, get?_set, get?_set, get?_set, h k]

theorem get?_before_roleAssignment_perm (cs : ContainerService)
    (pools : List AgentPoolProfile) (hperm : pools.Perm cs.AgentPoolProfiles) (k : String) :
    (addonOutputs (withAgentPools cs pools) (pools.foldl agentPoolOutputs
      (if !IsHostedMasterProfile (withAgentPools cs pools) then
        mergeOutputs baseOutputs (getMasterOutputs (withAgentPools cs pools))
        else baseOutputs))).get? k =
    (addonOutputs cs (cs.AgentPoolProfiles.foldl agentPoolOutputs
      (if !IsHostedMasterProfile cs then mergeOutputs baseOutputs (getMasterOutputs cs)
        else baseOutputs))).get? k := by
  apply get?_addonOutputs_congr cs (withAgentPools cs pools) _ _ rfl
  apply get?_foldl_agentPoolOutputs_perm hperm
  intro k
  rw [getMasterOutputs_withAgentPools cs pools hperm]
  rfl

/-- C16: for every permutation of the agent-pool sequence, `GetKubernetesOutputs` returns
the same set of output names, and every output other than roleAssignmentNames has the same
type and value in both results; only the roleAssignmentNames value may depend on the pool
order. Pools of equal name write equal descriptors, so distinctness of the pool names is
not needed. -/
theorem outputs_invariant_under_pool_permutation (cs : ContainerService)
    (pools : List AgentPoolProfile) (hperm : pools.Perm cs.AgentPoolProfiles) :
    (∀ k, (GetKubernetesOutputs (withAgentPools cs pools)).contains k =
      (GetKubernetesOutputs cs).contains k) ∧
    (∀ k, k ≠ "roleAssignmentNames" →
      (GetKubernetesOutputs (withAgentPools cs pools)).get? k =
        (GetKubernetesOutputs cs).get? k) := by
  have hne : ∀ k, k ≠ "roleAssignmentNames" →
      (GetKubernetesOutputs (withAgentPools cs pools)).get? k =
        (GetKubernetesOutputs cs).get? k := by
    intro k hk
    unfold GetKubernetesOutputs
    simp only []
    rw [get?_roleAssignmentOutputs_of_ne _ _ _ hk, get?_roleAssignmentOutputs_of_ne _ _ _ hk]
    exact get?_before_roleAssignment_perm cs pools hperm k
  refine ⟨?_, hne⟩
  intro k
  unfold Outputs.contains
  by_cases hk : k = "roleAssignmentNames"
  · subst hk
    rw [get?_roleAssignmentNames, get?_roleAssignmentNames]
    have hs : SystemAssignedIDEnabled (withAgentPools cs pools) = SystemAssignedIDEnabled cs :=
      rfl
    rw [hs]
    cases SystemAssignedIDEnabled cs <;> rfl
  · rw [hne k hk]

/-- Witness of C16: the mixed topology with its pool sequence reversed. The per-pool output
of "pool1" is unchanged and the key roleAssignmentNames is kept, while the value of
roleAssignmentNames does change with the order. -/
theorem outputs_invariant_under_pool_permutation_witness :
    mixedConfig.AgentPoolProfiles.reverse.Perm mixedConfig.AgentPoolProfiles ∧
    (GetKubernetesOutputs
        (withAgentPools mixedConfig mixedConfig.AgentPoolProfiles.reverse)).get?
        "pool1SubnetName" = (GetKubernetesOutputs mixedConfig).get? "pool1SubnetName" ∧
    (GetKubernetesOutputs
        (withAgentPools mixedConfig mixedConfig.AgentPoolProfiles.reverse)).contains
        "roleAssignmentNames" = (GetKubernetesOutputs mixedConfig).contains
        "roleAssignmentNames" ∧
    (GetKubernetesOutputs
        (withAgentPools mixedConfig mixedConfig.AgentPoolProfiles.reverse)).get?
        "roleAssignmentNames" ≠ (GetKubernetesOutputs mixedConfig).get? "roleAssignmentNames" :=
  have h := outputs_invariant_under_pool_permutation mixedConfig
    mixedConfig.AgentPoolProfiles.reverse (List.reverse_perm _)
  ⟨List.reverse_perm _, h.2 "pool1SubnetName" (by decide), h.1 "roleAssignmentNames",
    by decide⟩

/-! ## Bracketing of the role-assignment expression -/

theorem parenDepth_append (a b : List Char) (d : Nat) :
    parenDepth d (a ++ b) = (parenDepth d a).bind (fun e => parenDepth e b) := by
  induction a generalizing d with
  | nil => simp [parenDepth]
  | cons c cs ih =>
    simp only [List.cons_append, parenDepth]
    by_cases h1 : c = '('
    · simp only [h1, if_true]; exact ih _
    · by_cases h2 : c = ')'
      · simp only [h2]
        by_cases h0 : d = 0
        · simp [h0]
        · simp only [h0, if_false]
          rw [if_neg (by decide)]
          exact ih _
      · simp only [h1, h2, if_false]; exact ih _

theorem parenDepth_shift (l : List Char) (k e : Nat) (h : parenDepth k l = some e) :
    ∀ d, parenDepth (d + k) l = some (d + e) := by
  induction l generalizing k with
  | nil =>
    intro d
    simp only [parenDepth, Option.some.injEq] at h ⊢
    rw [h]
  | cons c cs ih =>
    intro d
    simp only [parenDepth] at h ⊢
    by_cases h1 : c = '('
    · simp only [h1, if_true] at h ⊢
      exact ih (k + 1) h d
    · by_cases h2 : c = ')'
      · subst h2
        rw [if_neg (by decide), if_pos rfl] at h ⊢
        by_cases h0 : k = 0
        · simp [h0] at h
        · rw [if_neg h0] at h
          have hd : ¬ d + k = 0 := by omega
          rw [if_neg hd]
          have e1 : d + k - 1 = d + (k - 1) := by omega
          rw [e1]
          exact ih (k - 1) h d
      · simp only [h1, h2, if_false] at h ⊢
        exact ih k h d

theorem neutral_of_parenDepth_zero (l : List Char) (h : parenDepth 0 l = some 0) :
    Neutral l := by
  intro d
  simpa using parenDepth_shift l 0 0 h d

theorem neutral_of_noParen (l : List Char) (h1 : '(' ∉ l) (h2 : ')' ∉ l) : Neutral l := by
  induction l with
  | nil => intro d; rfl
  | cons c cs ih =>
    intro d
    simp only [List.mem_cons, not_or] at h1 h2
    simp only [parenDepth]
    rw [if_neg (fun e => h1.1 e.symm), if_neg (fun e => h2.1 e.symm)]
    exact ih h1.2 h2.2 d

theorem neutral_append (a b : List Char) (ha : Neutral a) (hb : Neutral b) :
    Neutral (a ++ b) := by
  intro d
  rw [parenDepth_append, ha d]
  exact hb d

theorem parenDepth_sound (l : List Char) (d e : Nat) (h : parenDepth d l = some e) :
    (∀ n, (l.take n).count ')' ≤ d + (l.take n).count '(') ∧
      d + l.count '(' = e + l.count ')' := by
  induction l generalizing d with
  | nil =>
    simp only [parenDepth, Option.some.injEq] at h
    simp [h]
  | cons c cs ih =>
    simp only [parenDepth] at h
    by_cases h1 : c = '('
    · subst h1
      rw [if_pos rfl] at h
      obtain ⟨hp, ht⟩ := ih (d + 1) h
      constructor
      · intro n
        cases n with
        | zero => simp
        | succ m =>
          have := hp m
          simp only [List.take_succ_cons, List.count_cons]
          simp
          omega
      · simp only [List.count_cons]
        simp
        omega
    · by_cases h2 : c = ')'
      · subst h2
        rw [if_neg (by decide), if_pos rfl] at h
        by_cases h0 : d = 0
        · simp [h0] at h
        · rw [if_neg h0] at h
          obtain ⟨hp, ht⟩ := ih (d - 1) h
          constructor
          · intro n
            cases n with
            | zero => simp
            | succ m =>
              have := hp m
              simp only [List.take_succ_cons, List.count_cons]
              simp
              omega
          · simp only [List.count_cons]
            simp
            omega
      · rw [if_neg h1, if_neg h2] at h
        obtain ⟨hp, ht⟩ := ih d h
        constructor
        · intro n
          cases n with
          | zero => simp
          | succ m =>
            have := hp m
            simp only [List.take_succ_cons, List.count_cons]
            simp [h1, h2]
            omega
        · simp only [List.count_cons]
          simp [h1, h2]
          omega

theorem wellBracketed_of_parenDepth (l : List Char) (h : parenDepth 0 l = some 0) :
    WellBracketed l := by
  obtain ⟨hp, ht⟩ := parenDepth_sound l 0 0 h
  exact ⟨fun n => by simpa using hp n, by simpa using ht⟩

theorem digitChar_ne_paren :
    ∀ m < 10, Nat.digitChar m ≠ '(' ∧ Nat.digitChar m ≠ ')' := by
  decide

theorem toDigitsCore_noParen (fuel n : Nat) (acc : List Char)
    (h : ∀ c ∈ acc, c ≠ '(' ∧ c ≠ ')') :
    ∀ c ∈ Nat.toDigitsCore 10 fuel n acc, c ≠ '(' ∧ c ≠ ')' := by
  induction fuel generalizing n acc with
  | zero => simpa [Nat.toDigitsCore] using h
  | succ f ih =>
    have hcons : ∀ c ∈ Nat.digitChar (n % 10) :: acc, c ≠ '(' ∧ c ≠ ')' := by
      intro c hc
      rcases List.mem_cons.mp hc with rfl | hc'
      · exact digitChar_ne_paren _ (Nat.mod_lt _ (by decide))
      · exact h c hc'
    simp only [Nat.toDigitsCore]
    split
    · exact hcons
    · exact ih _ _ hcons

theorem neutral_toString_nat (i : Nat) : Neutral (toString i).data := by
  have hd : (toString i).data = Nat.toDigitsCore 10 (i + 1) i [] := rfl
  rw [hd]
  have h := toDigitsCore_noParen (i + 1) i [] (by simp)
  exact neutral_of_noParen _ (fun hm => (h _ hm).1 rfl) (fun hm => (h _ hm).2 rfl)

set_option maxRecDepth 8000 in
theorem neutral_masterRoleAssignment (name : String) (i : Nat)
    (hn : Neutral name.data) : Neutral (masterRoleAssignment name i).data := by
  rw [masterRoleAssignment_eq_spec]
  unfold specMasterRoleAssignmentExpr
  have h1 : ∀ d, parenDepth d "resourceId(variables('".data = some (d + 2) := by
    intro d
    simpa using parenDepth_shift _ 0 2 (by decide) d
  have h2 := parenDepth_shift
    "SubnetResourceGroup'), 'Microsoft.Network/virtualNetworks/providers/roleAssignments', variables('".data
    2 2 rfl
  have h3 := parenDepth_shift
    "Vnet'), 'Microsoft.Authorization', guid(uniqueString(reference(resourceId(resourceGroup().name, 'Microsoft.Compute/virtualMachines', concat(variables('masterVMNamePrefix'), ".data
    2 6 rfl
  have h4 := parenDepth_shift ")), '2017-03-30', 'Full').identity.principalId)))".data
    6 0 rfl
  have hi := neutral_toString_nat i
  intro d
  simp only [String.data_append, parenDepth_append, h1, h2, h3, h4, hn (d + 2), hi (d + 6),
    Option.some_bind, Nat.add_zero]

theorem neutral_vmss_variable (name : String) (hn : Neutral name.data) :
    Neutral ("variables('" ++ name ++ "VMSSSysRoleAssignmentName')").data := by
  have h1 := parenDepth_shift "variables('".data 0 1 (by decide)
  have h2 := parenDepth_shift "VMSSSysRoleAssignmentName')".data 1 0 (by decide)
  intro d
  have e1 := h1 d
  have e2 := h2 d
  simp only [Nat.add_zero] at e1 e2
  simp only [String.data_append, parenDepth_append, e1, e2, hn (d + 1), Option.some_bind]

theorem neutral_Join (l : List String) (h : ∀ x ∈ l, Neutral x.data) :
    Neutral (Join l ", ").data := by
  have hsep : Neutral ", ".data := neutral_of_parenDepth_zero _ (by decide)
  induction l with
  | nil => intro d; rfl
  | cons a rest ih =>
    cases rest with
    | nil => exact h a (List.mem_cons_self _ _)
    | cons b rest' =>
      simp only [Join, String.data_append]
      exact neutral_append _ _
        (neutral_append _ _ (h a (List.mem_cons_self _ _)) hsep)
        (ih (fun x hx => h x (List.mem_cons_of_mem _ hx)))

theorem neutral_createArray (body : String) (h : Neutral body.data) :
    Neutral (", createArray(" ++ body ++ ")").data := by
  have h1 := parenDepth_shift ", createArray(".data 0 1 (by decide)
  have h2 := parenDepth_shift ")".data 1 0 (by decide)
  intro d
  have e1 := h1 d
  have e2 := h2 d
  simp only [Nat.add_zero] at e1 e2
  simp only [String.data_append, parenDepth_append, e1, e2, h (d + 1), Option.some_bind]

theorem neutral_roleAssignmentOutputValue (cs : ContainerService)
    (hnp : ∀ p ∈ cs.AgentPoolProfiles, '(' ∉ p.Name.data ∧ ')' ∉ p.Name.data) :
    Neutral (roleAssignmentOutputValue cs).data := by
  have hname : ∀ p ∈ cs.AgentPoolProfiles, Neutral p.Name.data :=
    fun p hp => neutral_of_noParen _ (hnp p hp).1 (hnp p hp).2
  have hbase : Neutral "variables('vmasRoleAssignmentNames')".data :=
    neutral_of_parenDepth_zero _ (by decide)
  have hM : Neutral (Join (masterRoleAssignmentForAgentPools cs) ", ").data := by
    apply neutral_Join
    intro x hx
    rw [masterRoleAssignmentForAgentPools_eq, List.mem_flatMap] at hx
    obtain ⟨p, hp, hx⟩ := hx
    rw [List.mem_map] at hx
    obtain ⟨i, -, rfl⟩ := hx
    exact neutral_masterRoleAssignment p.Name i (hname p hp)
  have hV : Neutral (Join (vmssSysRoleAssignmentVariables cs) ", ").data := by
    apply neutral_Join
    intro x hx
    rw [vmssSysRoleAssignmentVariables_eq, List.mem_map] at hx
    obtain ⟨p, hp, rfl⟩ := hx
    exact neutral_vmss_variable p.Name (hname p (List.mem_of_mem_filter hp))
  unfold roleAssignmentOutputValue
  simp only []
  split <;> split
  · rw [String.data_append, String.data_append]
    exact neutral_append _ _ (neutral_append _ _ hbase (neutral_createArray _ hM))
      (neutral_createArray _ hV)
  · rw [String.data_append]
    exact neutral_append _ _ hbase (neutral_createArray _ hV)
  · rw [String.data_append]
    exact neutral_append _ _ hbase (neutral_createArray _ hM)
  · exact hbase

/-- C15: with system-assigned identity and no parenthesis in any agent-pool name, the
roleAssignmentNames value starts with "[concat(" and ends with ")]", and between the outer
'[' and ']' the parentheses are balanced: every prefix has at least as many '(' as ')' and
the totals are equal, for any number of pools and any master count. -/
theorem roleAssignmentNames_well_bracketed (cs : ContainerService)
    (hid : cs.OrchestratorSettings.identityMode = IdentityMode.systemAssigned)
    (hnp : ∀ p ∈ cs.AgentPoolProfiles, '(' ∉ p.Name.data ∧ ')' ∉ p.Name.data) :
    ∃ inner : String,
      (GetKubernetesOutputs cs).get? "roleAssignmentNames" =
        some ⟨"array", "[" ++ ("concat(" ++ inner ++ ")") ++ "]"⟩ ∧
      WellBracketed ("concat(" ++ inner ++ ")").data := by
  have hs : SystemAssignedIDEnabled cs = true := by
    simp [SystemAssignedIDEnabled, hid]
  refine ⟨roleAssignmentOutputValue cs, ?_, ?_⟩
  · rw [get?_roleAssignmentNames, if_pos hs]
    refine congrArg some (congrArg (Output.mk "array") ?_)
    apply String.ext
    simp only [String.data_append, List.append_assoc]
    rfl
  · apply wellBracketed_of_parenDepth
    have h1 := parenDepth_shift "concat(".data 0 1 (by decide) 0
    have h2 := parenDepth_shift ")".data 1 0 (by decide) 0
    simp only [Nat.add_zero, Nat.zero_add] at h1 h2
    simp only [String.data_append, parenDepth_append, h1, h2,
      neutral_roleAssignmentOutputValue cs hnp 1, Option.some_bind]

/-- Witness of C15 in the mixed topology (three pools, master count 1). -/
theorem roleAssignmentNames_well_bracketed_witness :
    mixedConfig.OrchestratorSettings.identityMode = IdentityMode.systemAssigned ∧
    (∀ p ∈ mixedConfig.AgentPoolProfiles, '(' ∉ p.Name.data ∧ ')' ∉ p.Name.data) ∧
    ∃ inner : String,
      (GetKubernetesOutputs mixedConfig).get? "roleAssignmentNames" =
        some ⟨"array", "[" ++ ("concat(" ++ inner ++ ")") ++ "]"⟩ ∧
      WellBracketed ("concat(" ++ inner ++ ")").data :=
  ⟨rfl, by decide, roleAssignmentNames_well_bracketed mixedConfig rfl (by decide)⟩

end Engine
